import Mathlib

/-!
# Eddy-current compensation (`src/Eddy-current/eddy_example.cpp`)

A shallow embedding of `compute_predicted` and of the computational part of `run`
(from the parameter check at line 62 to the end of the compensation loop), and the
properties of the specification that concern them. The frame detection of
`src/MRI/mri.cpp` is embedded after it.

Modelling conventions.

* `double` is modelled by `ℚ`: every statement is about exact arithmetic. `fmax` is
  `max`.
* The unqualified `abs` of lines 78, 101 and 112 is the C function `int abs(int)`: the file
  has no using-directive, so the overloads of `std` for `double` are not candidates. Its
  argument is converted from `double` to `int` (the fractional part is dropped) and its
  result is converted back to `double` for `fmax`. `int` is `Int` here: a deviation beyond
  the range of `int` has no defined conversion in C++ and is outside this model, as are the
  overflow and the rounding of `double`.
* `std::vector<double>` is a `List ℚ`. `v[i]` is `v[i]?`; reading or writing an index
  outside the vector is undefined behaviour in C++ and is the failure `none` here.
* A counting loop `for (i = 0; i < n; ++i)` is `forRange n body init`.
* File reading, argument parsing, plotting and number formatting are not modelled: `run`
  takes the loaded vectors and options as arguments, the lines written to the terminal
  are a list of `Report`s and the output file is the waveform last written to it.
-/

namespace Eddy

/-! ## Loops -/

/-- The loop `for (i = start; fuel iterations; ++i) s = body(i, s)`, failing as soon as
the body fails. -/
def forLoop {σ : Type} (body : Nat → σ → Option σ) : Nat → Nat → σ → Option σ
  | 0, _, s => some s
  | fuel + 1, i, s =>
    match body i s with
    | none => none
    | some s' => forLoop body fuel (i + 1) s'

/-- The loop `for (size_t i = 0; i < n; ++i) s = body(i, s)`. -/
def forRange {σ : Type} (n : Nat) (body : Nat → σ → Option σ) (init : σ) : Option σ :=
  forLoop body n 0 init

/-! ## The response model: `compute_predicted` (lines 134-160) -/

/-- Line 147: `currents[i] = currents[i] + dG - currents[i] * rate_constants[i]`. -/
def update_current (rate_constants : List ℚ) (dG : ℚ) (i : Nat) (currents : List ℚ) :
    Option (List ℚ) :=
  match currents[i]?, rate_constants[i]? with
  | some c, some r => some (currents.set i (c + dG - c * r))
  | _, _ => none

/-- Lines 146-148: `for i < amplitudes.size()` over line 147. The bound `n` is
`amplitudes.size()`. -/
def update_currents (n : Nat) (rate_constants : List ℚ) (dG : ℚ) (currents : List ℚ) :
    Option (List ℚ) :=
  forRange n (update_current rate_constants dG) currents

/-- Line 153: `eddy_effect += currents[i] * amplitudes[i]`. -/
def add_effect (amplitudes currents : List ℚ) (i : Nat) (eddy : ℚ) : Option ℚ :=
  match currents[i]?, amplitudes[i]? with
  | some c, some a => some (eddy + c * a)
  | _, _ => none

/-- Lines 151-154: `eddy_effect = 0; for i < amplitudes.size()` over line 153. -/
def eddy_effect (amplitudes currents : List ℚ) : Option ℚ :=
  forRange amplitudes.length (add_effect amplitudes currents) 0

/-- The local variables of `compute_predicted` that live across time steps. -/
structure PredState where
  predicted : List ℚ
  currents : List ℚ
  prev_G : ℚ
deriving DecidableEq

/-- Lines 141-157: the body of the loop over time steps `t`. -/
def predict_step (input amplitudes rate_constants : List ℚ) (t : Nat) (st : PredState) :
    Option PredState :=
  match input[t]? with
  | none => none
  | some current_G =>
    let dG := current_G - st.prev_G
    match update_currents amplitudes.length rate_constants dG st.currents with
    | none => none
    | some currents =>
      match eddy_effect amplitudes currents with
      | none => none
      | some eddy =>
        if t < st.predicted.length then
          some { predicted := st.predicted.set t (current_G - eddy)
                 currents := currents
                 prev_G := current_G }
        else none

/-- Lines 134-160: `compute_predicted(input, amplitudes, rate_constants)`. -/
def compute_predicted (input amplitudes rate_constants : List ℚ) : Option (List ℚ) :=
  (forRange input.length (predict_step input amplitudes rate_constants)
    { predicted := List.replicate input.length 0
      currents := List.replicate amplitudes.length 0
      prev_G := 0 }).map PredState.predicted

/-! ## The compensation loop: `run` (lines 62-130) -/

/-- The conversion of a `double` to `int`: the fractional part is dropped (rounding
towards zero). -/
def to_int (x : ℚ) : Int := if 0 ≤ x then ⌊x⌋ else ⌈x⌉

/-- The call `abs(x)` of lines 78, 101 and 112 on a `double` `x`: `int abs(int)` on the
converted argument, its `int` result read as a `double` again. -/
def int_abs (x : ℚ) : ℚ := ((|to_int x| : Int) : ℚ)

/-- Line 78 (and 101, 112): `max_dev = fmax(max_dev, abs(desired[i] - predicted[i]))`. -/
def max_step (desired predicted : List ℚ) (i : Nat) (max_dev : ℚ) : Option ℚ :=
  match desired[i]?, predicted[i]? with
  | some d, some p => some (max max_dev (int_abs (d - p)))
  | _, _ => none

/-- Lines 76-78 (and 99-101, 110-112): `max_dev = 0; for i < desired.size()` over
line 78. -/
def max_deviation (desired predicted : List ℚ) : Option ℚ :=
  forRange desired.length (max_step desired predicted) 0

/-- Line 92: `input[i] += desired[i] - predicted[i]`. -/
def correct_sample (desired predicted : List ℚ) (i : Nat) (input : List ℚ) :
    Option (List ℚ) :=
  match input[i]?, desired[i]?, predicted[i]? with
  | some x, some d, some p => some (input.set i (x + (d - p)))
  | _, _, _ => none

/-- Lines 91-92: `for i < input.size()` over line 92. -/
def update_input (desired predicted input : List ℚ) : Option (List ℚ) :=
  forRange input.length (correct_sample desired predicted) input

/-- Which of the three output statements wrote a line: line 81 (`std::cout`, default
format), line 103 (`std::cout`, fixed with 7 decimals) or line 113 (`debug::log` of the
header `debug.h`, taken to write the line it is given). -/
inductive ReportKind where
  | initial
  | final
  | verbose
deriving DecidableEq

/-- One line "iteration k, maximum absolute deviation = m". -/
structure Report where
  round : Int
  max_dev : ℚ
  kind : ReportKind
deriving DecidableEq

/-- The variables of `run` that the compensation loop reads and writes, with the lines
reported so far and the waveform held by the output file (`none`: never written). -/
structure RunState where
  input : List ℚ
  predicted : List ℚ
  reports : List Report
  snapshot : Option (List ℚ)
deriving DecidableEq

/-- The ways `run` can stop early: the exception of line 63, or an out-of-range vector
access. -/
inductive RunError where
  | no_valid_parameters
  | index_out_of_range
deriving DecidableEq

/-- Lines 90-129: the body of the loop over `iter`. `writable` tells whether opening the
output file succeeds. Line 103 prints a name `iteration` that the file does not declare;
the report carries the round `iter`, which equals `iterations` on that branch. -/
def round_body (amplitudes rate_constants desired : List ℚ) (iterations : Int)
    (verbose : Bool) (output_file : String) (writable : Bool) (iter : Int)
    (st : RunState) : Option RunState :=
  match update_input desired st.predicted st.input with
  | none => none
  | some input =>
    match compute_predicted input amplitudes rate_constants with
    | none => none
    | some predicted =>
      let reports : Option (List Report) :=
        if iter = iterations then
          (max_deviation desired predicted).map
            (fun m => st.reports ++ [{ round := iter, max_dev := m, kind := .final }])
        else if verbose then
          (max_deviation desired predicted).map
            (fun m => st.reports ++ [{ round := iter, max_dev := m, kind := .verbose }])
        else some st.reports
      match reports with
      | none => none
      | some reports =>
        some { input := input
               predicted := predicted
               reports := reports
               snapshot :=
                 if output_file ≠ "" then
                   (if writable then some input else st.snapshot)
                 else st.snapshot }

/-- Lines 72-81: the initial prediction and the report of round 0. -/
def run_init (amplitudes rate_constants desired : List ℚ) : Option RunState :=
  match compute_predicted desired amplitudes rate_constants with
  | none => none
  | some predicted =>
    match max_deviation desired predicted with
    | none => none
    | some max_dev =>
      some { input := desired
             predicted := predicted
             reports := [{ round := 0, max_dev := max_dev, kind := .initial }]
             snapshot := none }

/-- Lines 89-130: `for (int iter = 1; iter <= iterations; ++iter)`, which runs
`iterations` times, and not at all when `iterations` is negative. The counter is not
bounded here (in C++ it overflows only when `iterations` is the largest `int`). -/
def run_loop (amplitudes rate_constants desired : List ℚ) (iterations : Int)
    (verbose : Bool) (output_file : String) (writable : Bool) (st : RunState) :
    Option RunState :=
  forRange iterations.toNat (fun i s =>
    round_body amplitudes rate_constants desired iterations verbose output_file writable
      ((i : Int) + 1) s) st

/-- Lines 62-130 of `run`, on the loaded parameters (`amplitudes`, `rate_constants`), the
loaded waveform `desired` and the options `iterations` (`-n`), `verbose` (`-v`) and
`output_file` (empty when no fourth argument is given). -/
def run (amplitudes rate_constants desired : List ℚ) (iterations : Int) (verbose : Bool)
    (output_file : String) (writable : Bool) : Except RunError RunState :=
  if amplitudes.isEmpty || rate_constants.isEmpty then
    .error .no_valid_parameters
  else
    match run_init amplitudes rate_constants desired with
    | none => .error .index_out_of_range
    | some st0 =>
      match run_loop amplitudes rate_constants desired iterations verbose output_file
          writable st0 with
      | none => .error .index_out_of_range
      | some st => .ok st

/-! ## The recurrence of the specification -/

/-- The sample `x[t]`, and 0 outside the waveform. -/
def sample (x : List ℚ) (t : Nat) : ℚ := x.getD t 0

/-- The current `c_i(t)` of a mode with rate constant `ri` driven by the waveform `x`, as
the specification defines it: `c_i(t) = c_i(t-1) + (x[t] - x[t-1]) - c_i(t-1) * r_i`
with `c_i(-1) = 0` and `x[-1] = 0`. -/
def spec_current (x : List ℚ) (ri : ℚ) : Nat → ℚ
  | 0 => 0 + (sample x 0 - 0) - 0 * ri
  | t + 1 => spec_current x ri t + (sample x (t + 1) - sample x t) - spec_current x ri t * ri

/-- The eddy effect `sum_i c_i(t) * a_i` of the specification. -/
def spec_eddy (x amplitudes rate_constants : List ℚ) (t : Nat) : ℚ :=
  ∑ i ∈ Finset.range amplitudes.length,
    spec_current x (sample rate_constants i) t * sample amplitudes i

/-- The sample `p[t] = x[t] - sum_i c_i(t) * a_i` of the specification. -/
def spec_predicted (x amplitudes rate_constants : List ℚ) (t : Nat) : ℚ :=
  sample x t - spec_eddy x amplitudes rate_constants t

/-- The waveform `p[0], ..., p[T-1]` of the specification, `T` the length of `x`. -/
def spec_waveform (x amplitudes rate_constants : List ℚ) : List ℚ :=
  (List.range x.length).map (spec_predicted x amplitudes rate_constants)

/-- The previous sample `x[t-1]`, with `x[-1] = 0`: the value of `prev_G` when step `t`
begins. -/
def prev_sample (x : List ℚ) : Nat → ℚ
  | 0 => 0
  | t + 1 => sample x t

/-- The current of a mode after `n` samples of `x` have been processed (0 before the
first): the value of `currents[i]` when step `n` begins. -/
def current_after (x : List ℚ) (ri : ℚ) : Nat → ℚ
  | 0 => 0
  | n + 1 => current_after x ri n + (sample x n - prev_sample x n) - current_after x ri n * ri

/-- The largest of 0 and the absolute deviations `|desired[t] - predicted[t]|` for
`t < n`. -/
def dev_max (desired predicted : List ℚ) : Nat → ℚ
  | 0 => 0
  | n + 1 => max (dev_max desired predicted n) |sample desired n - sample predicted n|

/-- The convergence metric `max_t |desired[t] - predicted[t]|` of the specification. -/
def spec_metric (desired predicted : List ℚ) : ℚ :=
  dev_max desired predicted desired.length

/-- The corrected waveform of the specification: `input[t] + desired[t] - predicted[t]`
at every sample `t` of `input`. -/
def spec_correct (desired predicted input : List ℚ) : List ℚ :=
  (List.range input.length).map
    (fun t => sample input t + sample desired t - sample predicted t)

/-- The working waveform `input_k` of the specification after `k` correction rounds:
`input_0 = desired` and `input_(k+1)[t] = input_k[t] + desired[t] - predicted_k[t]`,
where `predicted_k` is the response of the model to `input_k`. -/
def spec_input (desired amplitudes rate_constants : List ℚ) : Nat → List ℚ
  | 0 => desired
  | k + 1 =>
    spec_correct desired
      (spec_waveform (spec_input desired amplitudes rate_constants k) amplitudes rate_constants)
      (spec_input desired amplitudes rate_constants k)

/-- The prediction `predicted_k` of round `k`: the response of the model to `input_k`. -/
def spec_round (desired amplitudes rate_constants : List ℚ) (k : Nat) : List ℚ :=
  spec_waveform (spec_input desired amplitudes rate_constants k) amplitudes rate_constants

/-- The convergence metric of round `k`. -/
def round_metric (desired amplitudes rate_constants : List ℚ) (k : Nat) : ℚ :=
  spec_metric desired (spec_round desired amplitudes rate_constants k)

/-- The value of the variable `max_dev` after the first `n` samples have been compared:
the largest of 0 and `abs(desired[t] - predicted[t])` for `t < n`, with the `abs` of the
source. -/
def printed_dev (desired predicted : List ℚ) : Nat → ℚ
  | 0 => 0
  | n + 1 => max (printed_dev desired predicted n) (int_abs (sample desired n - sample predicted n))

/-- The value that lines 76-78 (and 99-101, 110-112) compute for a prediction. -/
def printed_metric (desired predicted : List ℚ) : ℚ :=
  printed_dev desired predicted desired.length

/-- The value that `run` computes as the metric of round `k`. -/
def round_printed (desired amplitudes rate_constants : List ℚ) (k : Nat) : ℚ :=
  printed_metric desired (spec_round desired amplitudes rate_constants k)

/-- The lines reported up to round `k` of a run of `iterations` rounds: round 0, then each
round that is the last one or that is run in verbose mode. -/
def round_reports (iterations : Int) (verbose : Bool) (metric : Nat → ℚ) : Nat → List Report
  | 0 => [{ round := 0, max_dev := metric 0, kind := .initial }]
  | k + 1 =>
    round_reports iterations verbose metric k ++
      (if ((k : Int) + 1) = iterations then
        [{ round := (k : Int) + 1, max_dev := metric (k + 1), kind := .final }]
      else if verbose then
        [{ round := (k : Int) + 1, max_dev := metric (k + 1), kind := .verbose }]
      else [])

/-- The state of `run` after `k` rounds, in terms of the specification. -/
def round_state (amplitudes rate_constants desired : List ℚ) (iterations : Int)
    (verbose : Bool) (output_file : String) (writable : Bool) (k : Nat) : RunState :=
  { input := spec_input desired amplitudes rate_constants k
    predicted := spec_round desired amplitudes rate_constants k
    reports := round_reports iterations verbose (round_printed desired amplitudes rate_constants) k
    snapshot :=
      if k = 0 then none
      else if output_file ≠ "" ∧ writable = true then
        some (spec_input desired amplitudes rate_constants k)
      else none }

/-- The deviation waveform `e_k = desired - predicted_k` of round `k`. -/
def spec_error (desired amplitudes rate_constants : List ℚ) (k : Nat) : List ℚ :=
  (List.range desired.length).map
    (fun t => sample desired t - sample (spec_round desired amplitudes rate_constants k) t)

/-- The deviation waveform `desired - predicted`, sample by sample. -/
def deviation (desired predicted : List ℚ) : List ℚ :=
  (List.range desired.length).map (fun t => sample desired t - sample predicted t)

/-- The invariant of the loop over time steps of `compute_predicted`. -/
def PredInv (x amplitudes rate_constants : List ℚ) (t : Nat) (st : PredState) : Prop :=
  st.predicted.length = x.length ∧
  (∀ j, j < t → st.predicted[j]? = some (spec_predicted x amplitudes rate_constants j)) ∧
  st.currents.length = amplitudes.length ∧
  (∀ i, i < amplitudes.length →
    st.currents[i]? = some (current_after x (sample rate_constants i) t)) ∧
  st.prev_G = prev_sample x t

end Eddy

/-! # The frame detection of `src/MRI/mri.cpp`

The three functions on the signal timecourse, with `double` as `ℚ` and vectors as lists.
A frame is an `int` in the source and an `Int` here; the conversion of the `size_t`
counter to `int` is taken as exact. -/

namespace MRI

/-- The ways the functions stop without a result: `exit(1)` on an empty vector, or an
out-of-range vector access. -/
inductive Failure where
  | empty_input
  | index_out_of_range
deriving DecidableEq

/-- The variables `peakFrame` and `peakIntensity` of `findPeakContrastTimeframe`. -/
structure PeakState where
  peakFrame : Int
  peakIntensity : ℚ
deriving DecidableEq

/-- Lines 78-81: `if (signalTimecourse[i] > peakIntensity) { peakIntensity =
signalTimecourse[i]; peakFrame = i; }`. -/
def peak_step (signalTimecourse : List ℚ) (i : Nat) (st : PeakState) : Option PeakState :=
  match signalTimecourse[i]? with
  | none => none
  | some v =>
    if v > st.peakIntensity then some { peakFrame := (i : Int), peakIntensity := v }
    else some st

/-- Lines 69-84: `findPeakContrastTimeframe`. The loop of line 77 runs `i` from 1 to
`size - 1`, from `peakFrame = 1` (line 75) and `peakIntensity = signalTimecourse[0]`
(line 76). -/
def findPeakContrastTimeframe (signalTimecourse : List ℚ) : Except Failure Int :=
  if signalTimecourse.isEmpty then .error .empty_input
  else
    match signalTimecourse[0]? with
    | none => .error .index_out_of_range
    | some first =>
      match Eddy.forLoop (peak_step signalTimecourse) (signalTimecourse.length - 1) 1
          { peakFrame := 1, peakIntensity := first } with
      | none => .error .index_out_of_range
      | some st => .ok st.peakFrame

/-- Line 92: `gradient.push_back(signalTimecourse[i] - signalTimecourse[i - 1])`. -/
def gradient_step (signalTimecourse : List ℚ) (i : Nat) (gradient : List ℚ) :
    Option (List ℚ) :=
  match signalTimecourse[i]?, signalTimecourse[i - 1]? with
  | some v, some u => some (gradient ++ [v - u])
  | _, _ => none

/-- Lines 89-95: `calculateSignalGradient`, the loop running `i` from 1 to `size - 1`. -/
def calculateSignalGradient (signalTimecourse : List ℚ) : Option (List ℚ) :=
  Eddy.forLoop (gradient_step signalTimecourse) (signalTimecourse.length - 1) 1 []

/-- Lines 108-113: the loop `for (i = ...; fuel iterations; ++i)` that stops at the first
`i` with `gradient[i] > threshold` (`threshold = 10`, line 107) and sets `arrivalFrame`
to it. -/
def arrival_loop (gradient : List ℚ) : Nat → Nat → Int → Option Int
  | 0, _, arrivalFrame => some arrivalFrame
  | fuel + 1, i, arrivalFrame =>
    match gradient[i]? with
    | none => none
    | some g =>
      if g > 10 then some (i : Int)
      else arrival_loop gradient fuel (i + 1) arrivalFrame

/-- Lines 100-115: `findContrastArrivalTimeframe`. The loop of line 108 runs `i` from 1
to `size - 1`, from `arrivalFrame = 0` (line 106). -/
def findContrastArrivalTimeframe (gradient : List ℚ) : Except Failure Int :=
  if gradient.isEmpty then .error .empty_input
  else
    match arrival_loop gradient (gradient.length - 1) 1 0 with
    | none => .error .index_out_of_range
    | some arrivalFrame => .ok arrivalFrame

end MRI

namespace Eddy

/-! ## Loop rules -/

theorem forLoop_inv {σ : Type} (body : Nat → σ → Option σ) (Inv : Nat → σ → Prop) :
    ∀ (fuel i : Nat) (s : σ), Inv i s →
      (∀ j s, i ≤ j → j < i + fuel → Inv j s → ∃ s', body j s = some s' ∧ Inv (j + 1) s') →
      ∃ s', forLoop body fuel i s = some s' ∧ Inv (i + fuel) s' := by
  intro fuel
  induction fuel with
  | zero =>
    intro i s h0 _
    exact ⟨s, rfl, by simpa using h0⟩
  | succ k ih =>
    intro i s h0 hstep
    obtain ⟨s1, hb, h1⟩ := hstep i s (Nat.le_refl i) (by omega) h0
    obtain ⟨s2, hl, h2⟩ := ih (i + 1) s1 h1
      (fun j s hj hj2 hI => hstep j s (by omega) (by omega) hI)
    refine ⟨s2, ?_, ?_⟩
    · simp only [forLoop, hb]
      exact hl
    · have e : i + (k + 1) = i + 1 + k := by omega
      rw [e]
      exact h2

/-- The invariant rule for a counting loop: an invariant that holds at the start and is
kept by every iteration (which does not fail) holds at the end, and the loop returns. -/
theorem forRange_inv {σ : Type} (n : Nat) (body : Nat → σ → Option σ) (init : σ)
    (Inv : Nat → σ → Prop) (h0 : Inv 0 init)
    (hstep : ∀ j s, j < n → Inv j s → ∃ s', body j s = some s' ∧ Inv (j + 1) s') :
    ∃ s', forRange n body init = some s' ∧ Inv n s' := by
  obtain ⟨s', h1, h2⟩ := forLoop_inv body Inv n 0 init h0
    (fun j s _ hj hI => hstep j s (by omega) hI)
  exact ⟨s', h1, by simpa using h2⟩

theorem sample_of_lt {x : List ℚ} {t : Nat} (h : t < x.length) : x[t]? = some (sample x t) := by
  simp [sample, List.getElem?_eq_getElem h]

theorem spec_current_eq (x : List ℚ) (ri : ℚ) (t : Nat) :
    spec_current x ri t = current_after x ri (t + 1) := by
  induction t with
  | zero => simp [spec_current, current_after, prev_sample]
  | succ n ih =>
    rw [spec_current, ih]
    rfl

/-! ## The response model computes the recurrence -/

theorem update_currents_spec (n : Nat) (rate_constants : List ℚ) (dG : ℚ) (currents : List ℚ)
    (hc : currents.length = n) (hr : n ≤ rate_constants.length) :
    ∃ cur, update_currents n rate_constants dG currents = some cur ∧ cur.length = n ∧
      ∀ i, i < n → cur[i]? =
        some (sample currents i + dG - sample currents i * sample rate_constants i) := by
  obtain ⟨cur, h1, h2, h3⟩ := forRange_inv n (update_current rate_constants dG) currents
    (fun j s => s.length = n ∧ ∀ i, i < n → s[i]? = some (if i < j then
      sample currents i + dG - sample currents i * sample rate_constants i
      else sample currents i))
    ⟨hc, fun i hi => by simpa using sample_of_lt (hc ▸ hi)⟩
    (by
      rintro j s hj ⟨hl, hs⟩
      have e1 := hs j hj
      have e2 : rate_constants[j]? = some (sample rate_constants j) :=
        sample_of_lt (by omega)
      simp only [Nat.lt_irrefl, if_false] at e1
      refine ⟨_, by rw [update_current, e1, e2], by simpa using hl, ?_⟩
      intro i hi
      rw [List.getElem?_set]
      by_cases hij : j = i
      · subst hij
        simp [hl, hi]
      · have := hs i hi
        by_cases hlt : i < j
        · have h' : i < j + 1 := by omega
          simpa [hij, hlt, h'] using this
        · have h' : ¬ i < j + 1 := by omega
          simpa [hij, hlt, h'] using this)
  exact ⟨cur, h1, h2, fun i hi => by simpa [hi] using h3 i hi⟩

theorem eddy_effect_spec (amplitudes currents : List ℚ)
    (hc : currents.length = amplitudes.length) :
    eddy_effect amplitudes currents =
      some (∑ i ∈ Finset.range amplitudes.length, sample currents i * sample amplitudes i) := by
  obtain ⟨e, h1, h2⟩ := forRange_inv amplitudes.length (add_effect amplitudes currents) (0 : ℚ)
    (fun j e => e = ∑ i ∈ Finset.range j, sample currents i * sample amplitudes i)
    (by simp)
    (by
      intro j e hj he
      have e1 : currents[j]? = some (sample currents j) := sample_of_lt (by omega)
      have e2 : amplitudes[j]? = some (sample amplitudes j) := sample_of_lt hj
      refine ⟨_, by rw [add_effect, e1, e2], ?_⟩
      show e + _ = ∑ i ∈ Finset.range (j + 1), _
      rw [Finset.sum_range_succ, he])
  rw [← h2]
  exact h1

theorem sample_of_getElem? {x : List ℚ} {t : Nat} {v : ℚ} (h : x[t]? = some v) :
    sample x t = v := by
  simp [sample, h]

theorem predict_step_inv (x amplitudes rate_constants : List ℚ)
    (hr : amplitudes.length ≤ rate_constants.length) (t : Nat) (st : PredState)
    (ht : t < x.length) (hinv : PredInv x amplitudes rate_constants t st) :
    ∃ st', predict_step x amplitudes rate_constants t st = some st' ∧
      PredInv x amplitudes rate_constants (t + 1) st' := by
  obtain ⟨hpl, hp, hcl, hc, hg⟩ := hinv
  obtain ⟨cur, hu, hul, hui⟩ := update_currents_spec amplitudes.length rate_constants
    (sample x t - st.prev_G) st.currents hcl hr
  have hcur : ∀ i, i < amplitudes.length →
      cur[i]? = some (current_after x (sample rate_constants i) (t + 1)) := by
    intro i hi
    rw [hui i hi, sample_of_getElem? (hc i hi), hg]
    rfl
  have he := eddy_effect_spec amplitudes cur hul
  have hsum : (∑ i ∈ Finset.range amplitudes.length, sample cur i * sample amplitudes i) =
      spec_eddy x amplitudes rate_constants t := by
    unfold spec_eddy
    refine Finset.sum_congr rfl (fun i hi => ?_)
    rw [sample_of_getElem? (hcur i (Finset.mem_range.mp hi)), spec_current_eq]
  rw [hsum] at he
  have hstep : predict_step x amplitudes rate_constants t st =
      some { predicted := st.predicted.set t (sample x t - spec_eddy x amplitudes rate_constants t)
             currents := cur
             prev_G := sample x t } := by
    simp only [predict_step, sample_of_lt ht, hu, he, hpl, ht, if_true]
  refine ⟨_, hstep, ?_⟩
  refine ⟨by simpa using hpl, ?_, hul, hcur, rfl⟩
  intro j hj
  show (st.predicted.set t _)[j]? = _
  rw [List.getElem?_set]
  by_cases hjt : t = j
  · subst hjt
    simp [hpl, ht, spec_predicted]
  · simpa [hjt] using hp j (by omega)

/-- The response model computes the recurrence of the specification whenever every
amplitude has a rate constant. -/
theorem compute_predicted_eq (x amplitudes rate_constants : List ℚ)
    (hr : amplitudes.length ≤ rate_constants.length) :
    compute_predicted x amplitudes rate_constants =
      some (spec_waveform x amplitudes rate_constants) := by
  obtain ⟨st, h1, hl, hp, -⟩ := forRange_inv x.length
    (predict_step x amplitudes rate_constants)
    { predicted := List.replicate x.length 0
      currents := List.replicate amplitudes.length 0
      prev_G := 0 }
    (PredInv x amplitudes rate_constants)
    ⟨by simp, by simp, by simp, fun i hi => by simp [hi, current_after], rfl⟩
    (fun t st ht hinv => predict_step_inv x amplitudes rate_constants hr t st ht hinv)
  have hst : st.predicted = spec_waveform x amplitudes rate_constants := by
    apply List.ext_getElem?
    intro j
    by_cases hj : j < x.length
    · rw [hp j hj]
      simp [spec_waveform, List.getElem?_range hj]
    · rw [List.getElem?_eq_none (by omega), List.getElem?_eq_none (by simp [spec_waveform]; omega)]
  simp only [compute_predicted, h1, Option.map_some', hst]

theorem length_spec_waveform (x amplitudes rate_constants : List ℚ) :
    (spec_waveform x amplitudes rate_constants).length = x.length := by
  simp [spec_waveform]

theorem getElem?_spec_waveform (x amplitudes rate_constants : List ℚ) (t : Nat)
    (ht : t < x.length) :
    (spec_waveform x amplitudes rate_constants)[t]? =
      some (spec_predicted x amplitudes rate_constants t) := by
  simp [spec_waveform, List.getElem?_range ht]

theorem sample_spec_waveform (x amplitudes rate_constants : List ℚ) (t : Nat)
    (ht : t < x.length) :
    sample (spec_waveform x amplitudes rate_constants) t =
      spec_predicted x amplitudes rate_constants t :=
  sample_of_getElem? (getElem?_spec_waveform x amplitudes rate_constants t ht)

/-! ## The loops of `run` -/

theorem max_deviation_eq (desired predicted : List ℚ)
    (hl : desired.length ≤ predicted.length) :
    max_deviation desired predicted = some (printed_metric desired predicted) := by
  obtain ⟨m, h1, h2⟩ := forRange_inv desired.length (max_step desired predicted) (0 : ℚ)
    (fun j m => m = printed_dev desired predicted j) rfl
    (by
      intro j m hj hm
      have e1 : desired[j]? = some (sample desired j) := sample_of_lt hj
      have e2 : predicted[j]? = some (sample predicted j) := sample_of_lt (by omega)
      refine ⟨_, by rw [max_step, e1, e2], ?_⟩
      show max m _ = printed_dev desired predicted (j + 1)
      rw [hm]
      rfl)
  rw [printed_metric, ← h2]
  exact h1

theorem update_input_eq (desired predicted input : List ℚ)
    (hd : input.length ≤ desired.length) (hp : input.length ≤ predicted.length) :
    update_input desired predicted input = some (spec_correct desired predicted input) := by
  obtain ⟨inp, h1, h2, h3⟩ := forRange_inv input.length (correct_sample desired predicted)
    input
    (fun j s => s.length = input.length ∧ ∀ i, i < input.length → s[i]? = some (if i < j then
      sample input i + sample desired i - sample predicted i else sample input i))
    ⟨rfl, fun i hi => by simpa using sample_of_lt hi⟩
    (by
      rintro j s hj ⟨hl, hs⟩
      have e1 := hs j hj
      have e2 : desired[j]? = some (sample desired j) := sample_of_lt (by omega)
      have e3 : predicted[j]? = some (sample predicted j) := sample_of_lt (by omega)
      simp only [Nat.lt_irrefl, if_false] at e1
      refine ⟨_, by rw [correct_sample, e1, e2, e3], by simpa using hl, ?_⟩
      intro i hi
      rw [List.getElem?_set]
      by_cases hij : j = i
      · subst hij
        simp [hl, hi, add_sub_assoc]
      · have := hs i hi
        by_cases hlt : i < j
        · have h' : i < j + 1 := by omega
          simpa [hij, hlt, h'] using this
        · have h' : ¬ i < j + 1 := by omega
          simpa [hij, hlt, h'] using this)
  have hst : inp = spec_correct desired predicted input := by
    apply List.ext_getElem?
    intro j
    by_cases hj : j < input.length
    · rw [h3 j hj]
      simp [spec_correct, List.getElem?_range hj, hj]
    · rw [List.getElem?_eq_none (by omega),
        List.getElem?_eq_none (by simp [spec_correct]; omega)]
  rw [← hst]
  exact h1

theorem length_spec_correct (desired predicted input : List ℚ) :
    (spec_correct desired predicted input).length = input.length := by
  simp [spec_correct]

theorem sample_spec_correct (desired predicted input : List ℚ) (t : Nat)
    (ht : t < input.length) :
    sample (spec_correct desired predicted input) t =
      sample input t + sample desired t - sample predicted t := by
  apply sample_of_getElem?
  simp [spec_correct, List.getElem?_range ht]

theorem length_spec_input (desired amplitudes rate_constants : List ℚ) (k : Nat) :
    (spec_input desired amplitudes rate_constants k).length = desired.length := by
  induction k with
  | zero => rfl
  | succ n ih => rw [spec_input, length_spec_correct, ih]

theorem length_spec_round (desired amplitudes rate_constants : List ℚ) (k : Nat) :
    (spec_round desired amplitudes rate_constants k).length = desired.length := by
  rw [spec_round, length_spec_waveform, length_spec_input]

theorem run_init_eq (amplitudes rate_constants desired : List ℚ) (iterations : Int)
    (verbose : Bool) (output_file : String) (writable : Bool)
    (hr : amplitudes.length ≤ rate_constants.length) :
    run_init amplitudes rate_constants desired =
      some (round_state amplitudes rate_constants desired iterations verbose output_file
        writable 0) := by
  have h1 := compute_predicted_eq desired amplitudes rate_constants hr
  have h2 := max_deviation_eq desired (spec_waveform desired amplitudes rate_constants)
    (by rw [length_spec_waveform])
  simp only [run_init, h1, h2]
  rfl

theorem round_body_eq (amplitudes rate_constants desired : List ℚ) (iterations : Int)
    (verbose : Bool) (output_file : String) (writable : Bool)
    (hr : amplitudes.length ≤ rate_constants.length) (k : Nat) :
    round_body amplitudes rate_constants desired iterations verbose output_file writable
        ((k : Int) + 1)
        (round_state amplitudes rate_constants desired iterations verbose output_file
          writable k) =
      some (round_state amplitudes rate_constants desired iterations verbose output_file
        writable (k + 1)) := by
  have h1 : update_input desired (spec_round desired amplitudes rate_constants k)
      (spec_input desired amplitudes rate_constants k) =
      some (spec_input desired amplitudes rate_constants (k + 1)) :=
    update_input_eq desired _ _ (by rw [length_spec_input])
      (by rw [length_spec_round, length_spec_input])
  have h2 : compute_predicted (spec_input desired amplitudes rate_constants (k + 1))
      amplitudes rate_constants = some (spec_round desired amplitudes rate_constants (k + 1)) :=
    compute_predicted_eq _ amplitudes rate_constants hr
  have h3 : max_deviation desired (spec_round desired amplitudes rate_constants (k + 1)) =
      some (round_printed desired amplitudes rate_constants (k + 1)) :=
    max_deviation_eq desired _ (by rw [length_spec_round])
  simp only [round_body, round_state, h1, h2, h3, round_reports, Option.map_some']
  have hsnap : (if output_file ≠ "" then
        (if writable = true then some (spec_input desired amplitudes rate_constants (k + 1))
         else if k = 0 then none
           else if output_file ≠ "" ∧ writable = true then
             some (spec_input desired amplitudes rate_constants k)
           else none)
      else if k = 0 then none
        else if output_file ≠ "" ∧ writable = true then
          some (spec_input desired amplitudes rate_constants k)
        else none) =
      (if k + 1 = 0 then none
        else if output_file ≠ "" ∧ writable = true then
          some (spec_input desired amplitudes rate_constants (k + 1))
        else none) := by
    by_cases ho : output_file = "" <;> cases writable <;> simp [ho]
  rw [hsnap]
  by_cases hit : ((k : Int) + 1) = iterations
  · simp only [if_pos hit]
  · cases verbose <;>
      simp only [if_neg hit, if_true, Bool.false_eq_true, if_false, List.append_nil]

/-- What `run` computes: with at least one mode and a rate constant for every amplitude,
it returns the state that the specification describes for round `iterations` (round 0
when `iterations` is negative). -/
theorem run_eq (amplitudes rate_constants desired : List ℚ) (iterations : Int)
    (verbose : Bool) (output_file : String) (writable : Bool)
    (hr : amplitudes.length ≤ rate_constants.length) (ha : amplitudes ≠ []) :
    run amplitudes rate_constants desired iterations verbose output_file writable =
      .ok (round_state amplitudes rate_constants desired iterations verbose output_file
        writable iterations.toNat) := by
  have hne : rate_constants ≠ [] := by
    intro h
    rw [h] at hr
    exact ha (List.length_eq_zero.mp (Nat.le_zero.mp hr))
  obtain ⟨st, h1, h2⟩ := forRange_inv iterations.toNat
    (fun i s => round_body amplitudes rate_constants desired iterations verbose output_file
      writable ((i : Int) + 1) s)
    (round_state amplitudes rate_constants desired iterations verbose output_file writable 0)
    (fun k s => s = round_state amplitudes rate_constants desired iterations verbose
      output_file writable k) rfl
    (by
      intro k s _ hs
      subst hs
      exact ⟨_, round_body_eq amplitudes rate_constants desired iterations verbose
        output_file writable hr k, rfl⟩)
  have h0 := run_init_eq amplitudes rate_constants desired iterations verbose output_file
    writable hr
  subst h2
  have he : (amplitudes.isEmpty || rate_constants.isEmpty) = false := by
    simp [List.isEmpty_iff, ha, hne]
  simp only [run, he, h0, run_loop, h1, Bool.false_eq_true, if_false]

/-! ## Facts on the metric and the reports -/

theorem dev_max_nonneg (desired predicted : List ℚ) (n : Nat) :
    0 ≤ dev_max desired predicted n := by
  induction n with
  | zero => exact le_refl 0
  | succ k ih => exact le_trans ih (le_max_left _ _)

theorem dev_max_upper (desired predicted : List ℚ) (n t : Nat) (ht : t < n) :
    |sample desired t - sample predicted t| ≤ dev_max desired predicted n := by
  induction n with
  | zero => omega
  | succ k ih =>
    by_cases h : t < k
    · exact le_trans (ih h) (le_max_left _ _)
    · have e : t = k := by omega
      subst e
      exact le_max_right _ _

theorem dev_max_attained (desired predicted : List ℚ) (n : Nat) :
    dev_max desired predicted n = 0 ∨
      ∃ t, t < n ∧ dev_max desired predicted n = |sample desired t - sample predicted t| := by
  induction n with
  | zero => exact Or.inl rfl
  | succ k ih =>
    rcases le_total (dev_max desired predicted k) |sample desired k - sample predicted k|
      with h | h
    · exact Or.inr ⟨k, by omega, max_eq_right h⟩
    · have e : dev_max desired predicted (k + 1) = dev_max desired predicted k :=
        max_eq_left h
      rcases ih with h0 | ⟨t, ht, h1⟩
      · exact Or.inl (by rw [e, h0])
      · exact Or.inr ⟨t, by omega, by rw [e, h1]⟩

theorem dev_max_attained_of_pos (desired predicted : List ℚ) (n : Nat) (hn : 0 < n) :
    ∃ t, t < n ∧ dev_max desired predicted n = |sample desired t - sample predicted t| := by
  rcases dev_max_attained desired predicted n with h0 | h
  · refine ⟨0, hn, ?_⟩
    have h1 := dev_max_upper desired predicted n 0 hn
    rw [h0] at h1
    rw [h0]
    exact le_antisymm (abs_nonneg _) h1
  · exact h

theorem head_round_reports (iterations : Int) (verbose : Bool) (metric : Nat → ℚ) (k : Nat) :
    (round_reports iterations verbose metric k).head? =
      some { round := 0, max_dev := metric 0, kind := .initial } := by
  induction k with
  | zero => rfl
  | succ n ih =>
    rw [round_reports, List.head?_append, ih]
    rfl

theorem mem_round_reports (iterations : Int) (verbose : Bool) (metric : Nat → ℚ) (k : Nat)
    (rep : Report) (h : rep ∈ round_reports iterations verbose metric k) :
    ∃ j, j ≤ k ∧ rep.round = (j : Int) ∧ rep.max_dev = metric j := by
  induction k with
  | zero =>
    simp only [round_reports, List.mem_singleton] at h
    subst h
    exact ⟨0, le_refl 0, rfl, rfl⟩
  | succ n ih =>
    rw [round_reports, List.mem_append] at h
    rcases h with h | h
    · obtain ⟨j, hj, h1, h2⟩ := ih h
      exact ⟨j, by omega, h1, h2⟩
    · by_cases hit : ((n : Int) + 1) = iterations
      · rw [if_pos hit, List.mem_singleton] at h
        subst h
        exact ⟨n + 1, le_refl _, by simp, rfl⟩
      · rw [if_neg hit] at h
        cases verbose
        · simp at h
        · simp only [if_true, List.mem_singleton] at h
          subst h
          exact ⟨n + 1, le_refl _, by simp, rfl⟩

theorem map_sample_range (x : List ℚ) : (List.range x.length).map (sample x) = x := by
  apply List.ext_getElem?
  intro j
  by_cases hj : j < x.length
  · simp [List.getElem?_range hj, sample_of_lt hj]
  · rw [List.getElem?_eq_none (by simp; omega), List.getElem?_eq_none (by omega)]

theorem sample_of_le {x : List ℚ} {t : Nat} (h : x.length ≤ t) : sample x t = 0 := by
  simp [sample, List.getElem?_eq_none h]

/-! ## The identity model -/

theorem sample_eq_zero_of_all_zero (amplitudes : List ℚ) (h0 : ∀ v ∈ amplitudes, v = 0)
    (i : Nat) : sample amplitudes i = 0 := by
  by_cases hi : i < amplitudes.length
  · have h1 : amplitudes[i]? = some amplitudes[i] := List.getElem?_eq_getElem hi
    rw [sample_of_getElem? h1]
    exact h0 _ (List.getElem_mem hi)
  · exact sample_of_le (by omega)

theorem spec_waveform_zero_amplitudes (x amplitudes rate_constants : List ℚ)
    (h0 : ∀ v ∈ amplitudes, v = 0) : spec_waveform x amplitudes rate_constants = x := by
  have h : spec_predicted x amplitudes rate_constants = sample x := by
    funext t
    simp [spec_predicted, spec_eddy, sample_eq_zero_of_all_zero amplitudes h0]
  rw [spec_waveform, h, map_sample_range]

theorem spec_correct_self (x : List ℚ) : spec_correct x x x = x := by
  have h : (fun t => sample x t + sample x t - sample x t) = sample x := by
    funext t
    ring
  rw [spec_correct, h, map_sample_range]

theorem spec_input_zero_amplitudes (desired amplitudes rate_constants : List ℚ)
    (h0 : ∀ v ∈ amplitudes, v = 0) (k : Nat) :
    spec_input desired amplitudes rate_constants k = desired := by
  induction k with
  | zero => rfl
  | succ n ih =>
    rw [spec_input, ih, spec_waveform_zero_amplitudes desired amplitudes rate_constants h0,
      spec_correct_self]

theorem dev_max_self (x : List ℚ) (n : Nat) : dev_max x x n = 0 := by
  induction n with
  | zero => rfl
  | succ k ih => simp [dev_max, ih]

/-! ## When the response model reads out of range -/

theorem forLoop_fail {σ : Type} (body : Nat → σ → Option σ) (j : Nat)
    (hfail : ∀ s, body j s = none) :
    ∀ (fuel i : Nat) (s : σ), i ≤ j → j < i + fuel → forLoop body fuel i s = none := by
  intro fuel
  induction fuel with
  | zero =>
    intro i s h1 h2
    omega
  | succ k ih =>
    intro i s h1 h2
    by_cases hij : i = j
    · subst hij
      simp only [forLoop, hfail s]
    · cases hb : body i s with
      | none => simp only [forLoop, hb]
      | some s' =>
        simp only [forLoop, hb]
        exact ih (i + 1) s' (by omega) (by omega)

theorem update_currents_fail (n : Nat) (rate_constants : List ℚ) (dG : ℚ)
    (currents : List ℚ) (hr : rate_constants.length < n) :
    update_currents n rate_constants dG currents = none := by
  apply forLoop_fail (update_current rate_constants dG) rate_constants.length
  · intro s
    have e : rate_constants[rate_constants.length]? = none :=
      List.getElem?_eq_none (le_refl _)
    unfold update_current
    rw [e]
    cases s[rate_constants.length]? <;> rfl
  · exact Nat.zero_le _
  · simpa using hr

theorem compute_predicted_fail (x amplitudes rate_constants : List ℚ) (hx : x ≠ [])
    (hr : rate_constants.length < amplitudes.length) :
    compute_predicted x amplitudes rate_constants = none := by
  have h : forRange x.length (predict_step x amplitudes rate_constants)
      { predicted := List.replicate x.length 0
        currents := List.replicate amplitudes.length 0
        prev_G := 0 } = none := by
    apply forLoop_fail (predict_step x amplitudes rate_constants) 0
    · intro s
      unfold predict_step
      cases x[0]? with
      | none => rfl
      | some g => simp only [update_currents_fail _ _ _ _ hr]
    · exact le_refl 0
    · simpa using List.length_pos.mpr hx
  simp only [compute_predicted, h, Option.map_none']

/-- The response model returns a waveform exactly when it reads no vector out of range:
when the input is empty or every amplitude has a rate constant. -/
theorem compute_predicted_eq_none_iff (x amplitudes rate_constants : List ℚ) :
    compute_predicted x amplitudes rate_constants = none ↔
      (x ≠ [] ∧ rate_constants.length < amplitudes.length) := by
  constructor
  · intro h
    by_cases hx : x = []
    · subst hx
      simp [compute_predicted, forRange, forLoop] at h
    · refine ⟨hx, ?_⟩
      by_contra hr
      rw [compute_predicted_eq x amplitudes rate_constants (by omega)] at h
      exact Option.some_ne_none _ h
  · rintro ⟨hx, hr⟩
    exact compute_predicted_fail x amplitudes rate_constants hx hr

theorem run_error_iff (amplitudes rate_constants desired : List ℚ) (iterations : Int)
    (verbose : Bool) (output_file : String) (writable : Bool) :
    run amplitudes rate_constants desired iterations verbose output_file writable =
        .error .no_valid_parameters ↔ (amplitudes = [] ∨ rate_constants = []) := by
  unfold run
  by_cases he : (amplitudes.isEmpty || rate_constants.isEmpty) = true
  · rw [if_pos he]
    simpa [List.isEmpty_iff] using he
  · rw [if_neg he]
    have hne : ¬ (amplitudes = [] ∨ rate_constants = []) := by
      simpa [List.isEmpty_iff] using he
    constructor
    · intro h
      exfalso
      cases h1 : run_init amplitudes rate_constants desired with
      | none => simp [h1] at h
      | some st0 =>
        simp only [h1] at h
        cases h2 : run_loop amplitudes rate_constants desired iterations verbose
            output_file writable st0 with
        | none => simp [h2] at h
        | some st => simp [h2] at h
    · intro h
      exact absurd h hne

theorem spec_input_nil (amplitudes rate_constants : List ℚ) (k : Nat) :
    spec_input [] amplitudes rate_constants k = [] :=
  List.length_eq_zero.mp (length_spec_input [] amplitudes rate_constants k)

theorem spec_round_nil (amplitudes rate_constants : List ℚ) (k : Nat) :
    spec_round [] amplitudes rate_constants k = [] :=
  List.length_eq_zero.mp (length_spec_round [] amplitudes rate_constants k)

/-! ## Linearity of the currents and the recurrence of the deviation -/

theorem prev_sample_add (x y z : List ℚ) (h : ∀ t, sample z t = sample x t + sample y t)
    (n : Nat) : prev_sample z n = prev_sample x n + prev_sample y n := by
  cases n with
  | zero => simp [prev_sample]
  | succ m => exact h m

theorem current_after_add (x y z : List ℚ) (ri : ℚ)
    (h : ∀ t, sample z t = sample x t + sample y t) (n : Nat) :
    current_after z ri n = current_after x ri n + current_after y ri n := by
  induction n with
  | zero => simp [current_after]
  | succ m ih =>
    simp only [current_after, ih, h m, prev_sample_add x y z h m]
    ring

theorem spec_eddy_add (x y z amplitudes rate_constants : List ℚ)
    (h : ∀ t, sample z t = sample x t + sample y t) (t : Nat) :
    spec_eddy z amplitudes rate_constants t =
      spec_eddy x amplitudes rate_constants t + spec_eddy y amplitudes rate_constants t := by
  simp only [spec_eddy, spec_current_eq, current_after_add x y z _ h, add_mul,
    Finset.sum_add_distrib]

theorem length_spec_error (desired amplitudes rate_constants : List ℚ) (k : Nat) :
    (spec_error desired amplitudes rate_constants k).length = desired.length := by
  simp [spec_error]

theorem sample_spec_error (desired amplitudes rate_constants : List ℚ) (k t : Nat)
    (ht : t < desired.length) :
    sample (spec_error desired amplitudes rate_constants k) t =
      sample desired t - sample (spec_round desired amplitudes rate_constants k) t := by
  apply sample_of_getElem?
  simp [spec_error, List.getElem?_range ht]

theorem sample_spec_input_succ (desired amplitudes rate_constants : List ℚ) (k t : Nat) :
    sample (spec_input desired amplitudes rate_constants (k + 1)) t =
      sample (spec_input desired amplitudes rate_constants k) t +
        sample (spec_error desired amplitudes rate_constants k) t := by
  by_cases ht : t < desired.length
  · rw [spec_input, sample_spec_correct _ _ _ t (by rw [length_spec_input]; exact ht),
      sample_spec_error _ _ _ k t ht, spec_round]
    ring
  · rw [sample_of_le (by rw [length_spec_input]; omega),
      sample_of_le (by rw [length_spec_input]; omega),
      sample_of_le (by rw [length_spec_error]; omega)]
    ring

/-- The deviation of the next round is the eddy effect of the present deviation. -/
theorem spec_error_succ (desired amplitudes rate_constants : List ℚ) (k t : Nat)
    (ht : t < desired.length) :
    sample desired t - sample (spec_round desired amplitudes rate_constants (k + 1)) t =
      spec_eddy (spec_error desired amplitudes rate_constants k) amplitudes rate_constants
        t := by
  have h1 := spec_eddy_add (spec_input desired amplitudes rate_constants k)
    (spec_error desired amplitudes rate_constants k)
    (spec_input desired amplitudes rate_constants (k + 1)) amplitudes rate_constants
    (sample_spec_input_succ desired amplitudes rate_constants k) t
  have h2 : sample (spec_round desired amplitudes rate_constants (k + 1)) t =
      spec_predicted (spec_input desired amplitudes rate_constants (k + 1)) amplitudes
        rate_constants t :=
    sample_spec_waveform _ _ _ t (by rw [length_spec_input]; exact ht)
  have h3 : sample (spec_round desired amplitudes rate_constants k) t =
      spec_predicted (spec_input desired amplitudes rate_constants k) amplitudes
        rate_constants t :=
    sample_spec_waveform _ _ _ t (by rw [length_spec_input]; exact ht)
  have h4 := sample_spec_input_succ desired amplitudes rate_constants k t
  rw [sample_spec_error _ _ _ k t ht, h3] at h4
  rw [h2]
  simp only [spec_predicted] at h4 ⊢
  rw [h1, h4]
  ring

/-! ## A bound on the current of a stable mode -/

theorem abs_prev_sample_le (x : List ℚ) (M : ℚ) (t : Nat)
    (hM : ∀ s, s ≤ t → |sample x s| ≤ M) (n : Nat) (hn : n ≤ t + 1) :
    |prev_sample x n| ≤ M := by
  cases n with
  | zero =>
    simp only [prev_sample, abs_zero]
    exact le_trans (abs_nonneg _) (hM 0 (Nat.zero_le t))
  | succ m => exact hM m (by omega)

theorem abs_current_sub_prev_le (x : List ℚ) (ri M : ℚ) (t : Nat) (h0 : 0 ≤ ri)
    (h1 : ri ≤ 1) (hM : ∀ s, s ≤ t → |sample x s| ≤ M) (n : Nat) (hn : n ≤ t + 1) :
    |current_after x ri n - prev_sample x n| ≤ M := by
  induction n with
  | zero =>
    simp only [current_after, prev_sample, sub_self, abs_zero]
    exact le_trans (abs_nonneg _) (hM 0 (Nat.zero_le t))
  | succ m ih =>
    have hw := ih (by omega)
    have hp := abs_prev_sample_le x M t hM m (by omega)
    have e : current_after x ri (m + 1) - prev_sample x (m + 1) =
        (1 - ri) * (current_after x ri m - prev_sample x m) + (-ri) * prev_sample x m := by
      simp only [current_after, prev_sample]
      ring
    rw [e]
    have hq : 0 ≤ 1 - ri := by linarith
    calc |(1 - ri) * (current_after x ri m - prev_sample x m) + (-ri) * prev_sample x m|
        ≤ |(1 - ri) * (current_after x ri m - prev_sample x m)| + |(-ri) * prev_sample x m| :=
          abs_add _ _
      _ = (1 - ri) * |current_after x ri m - prev_sample x m| + ri * |prev_sample x m| := by
          rw [abs_mul, abs_mul, abs_of_nonneg hq, abs_neg, abs_of_nonneg h0]
      _ ≤ (1 - ri) * M + ri * M :=
          add_le_add (mul_le_mul_of_nonneg_left hw hq) (mul_le_mul_of_nonneg_left hp h0)
      _ = M := by ring

/-- The current of a mode with rate constant in `[0, 1]` is at most twice the largest
sample seen so far. -/
theorem abs_spec_current_le (x : List ℚ) (ri M : ℚ) (t : Nat) (h0 : 0 ≤ ri) (h1 : ri ≤ 1)
    (hM : ∀ s, s ≤ t → |sample x s| ≤ M) : |spec_current x ri t| ≤ 2 * M := by
  have hw := abs_current_sub_prev_le x ri M t h0 h1 hM (t + 1) (le_refl _)
  have hx := hM t (le_refl t)
  rw [spec_current_eq]
  have e : current_after x ri (t + 1) =
      (current_after x ri (t + 1) - prev_sample x (t + 1)) + sample x t := by
    simp only [prev_sample]
    ring
  rw [e]
  calc |current_after x ri (t + 1) - prev_sample x (t + 1) + sample x t|
      ≤ |current_after x ri (t + 1) - prev_sample x (t + 1)| + |sample x t| := abs_add _ _
    _ ≤ M + M := add_le_add hw hx
    _ = 2 * M := by ring

theorem spec_eddy_single (x : List ℚ) (a ri : ℚ) (t : Nat) :
    spec_eddy x [a] [ri] t = spec_current x ri t * a := by
  simp [spec_eddy, sample]

/-- With one mode of rate constant in `[0, 1]` and amplitude at most 1/2 in absolute
value, the metric of a round is at most the metric of the round before. -/
theorem round_metric_succ_le (desired : List ℚ) (a ri : ℚ) (h0 : 0 ≤ ri) (h1 : ri ≤ 1)
    (ha : 2 * |a| ≤ 1) (k : Nat) :
    round_metric desired [a] [ri] (k + 1) ≤ round_metric desired [a] [ri] k := by
  have hM0 : 0 ≤ round_metric desired [a] [ri] k := dev_max_nonneg _ _ _
  have hM : ∀ s, |sample (spec_error desired [a] [ri] k) s| ≤ round_metric desired [a] [ri] k := by
    intro s
    by_cases hs : s < desired.length
    · rw [sample_spec_error _ _ _ k s hs]
      exact dev_max_upper _ _ _ s hs
    · rw [sample_of_le (by rw [length_spec_error]; omega), abs_zero]
      exact hM0
  rcases dev_max_attained desired (spec_round desired [a] [ri] (k + 1)) desired.length with
    h | ⟨t, ht, h⟩
  · rw [round_metric, spec_metric, h]
    exact hM0
  · rw [round_metric, spec_metric, h, spec_error_succ desired [a] [ri] k t ht,
      spec_eddy_single, abs_mul]
    have hc := abs_spec_current_le (spec_error desired [a] [ri] k) ri
      (round_metric desired [a] [ri] k) t h0 h1 (fun s _ => hM s)
    calc |spec_current (spec_error desired [a] [ri] k) ri t| * |a|
        ≤ 2 * round_metric desired [a] [ri] k * |a| :=
          mul_le_mul_of_nonneg_right hc (abs_nonneg a)
      _ = round_metric desired [a] [ri] k * (2 * |a|) := by ring
      _ ≤ round_metric desired [a] [ri] k * 1 := mul_le_mul_of_nonneg_left ha hM0
      _ = round_metric desired [a] [ri] k := mul_one _

/-! ## The reports of a verbose run -/

theorem length_round_reports_verbose (iterations : Int) (metric : Nat → ℚ) (k : Nat) :
    (round_reports iterations true metric k).length = k + 1 := by
  induction k with
  | zero => rfl
  | succ n ih =>
    rw [round_reports, List.length_append, ih]
    by_cases hit : ((n : Int) + 1) = iterations
    · rw [if_pos hit]
      rfl
    · rw [if_neg hit]
      rfl

theorem getElem?_round_reports_verbose (iterations : Int) (metric : Nat → ℚ) (k j : Nat)
    (hj : j ≤ k) :
    ∃ r, (round_reports iterations true metric k)[j]? = some r ∧ r.round = (j : Int) ∧
      r.max_dev = metric j := by
  induction k with
  | zero =>
    have e : j = 0 := by omega
    subst e
    exact ⟨_, rfl, rfl, rfl⟩
  | succ n ih =>
    have hlen := length_round_reports_verbose iterations metric n
    rw [round_reports]
    by_cases hjn : j ≤ n
    · obtain ⟨r, h1, h2, h3⟩ := ih hjn
      refine ⟨r, ?_, h2, h3⟩
      rw [List.getElem?_append_left (by omega)]
      exact h1
    · have e : j = n + 1 := by omega
      subst e
      rw [List.getElem?_append_right (by omega), hlen, Nat.sub_self]
      by_cases hit : ((n : Int) + 1) = iterations
      · rw [if_pos hit]
        exact ⟨_, rfl, by simp, rfl⟩
      · rw [if_neg hit]
        exact ⟨_, rfl, by simp, rfl⟩

/-! ## The scenario of the specification -/

/-- C1: for every input waveform `x` and every amplitude and rate-constant sequences of
equal length, `compute_predicted` returns a waveform `p` of the length of `x` whose sample
`t` is `x[t] - sum_i c_i(t) * a_i`, where `c_i` is the current of the specification's
recurrence (`spec_current`: `c_i(t) = c_i(t-1) + (x[t] - x[t-1]) - c_i(t-1) * r_i` from
`c_i(-1) = 0` and `x[-1] = 0`), in exact arithmetic. -/
theorem compute_predicted_recurrence (x amplitudes rate_constants : List ℚ)
    (h : amplitudes.length = rate_constants.length) :
    ∃ p, compute_predicted x amplitudes rate_constants = some p ∧ p.length = x.length ∧
      ∀ t, t < x.length →
        p[t]? = some (sample x t - ∑ i ∈ Finset.range amplitudes.length,
          spec_current x (sample rate_constants i) t * sample amplitudes i) :=
  ⟨spec_waveform x amplitudes rate_constants,
    compute_predicted_eq x amplitudes rate_constants (le_of_eq h),
    length_spec_waveform x amplitudes rate_constants,
    fun t ht => getElem?_spec_waveform x amplitudes rate_constants t ht⟩

theorem compute_predicted_recurrence_witness :
    ([1 / 5] : List ℚ).length = ([1 / 2] : List ℚ).length ∧
    ∃ p, compute_predicted [0, 1, 1] [1 / 5] [1 / 2] = some p ∧
      p.length = ([0, 1, 1] : List ℚ).length ∧
      ∀ t, t < ([0, 1, 1] : List ℚ).length →
        p[t]? = some (sample [0, 1, 1] t - ∑ i ∈ Finset.range ([1 / 5] : List ℚ).length,
          spec_current [0, 1, 1] (sample [1 / 2] i) t * sample [1 / 5] i) :=
  ⟨rfl, compute_predicted_recurrence [0, 1, 1] [1 / 5] [1 / 2] rfl⟩

/-- C2: for every input waveform and every amplitude and rate-constant sequences of equal
length (the empty input and the empty sequences included), `compute_predicted` returns a
waveform of exactly the length of the input. -/
theorem compute_predicted_length (x amplitudes rate_constants : List ℚ)
    (h : amplitudes.length = rate_constants.length) :
    ∃ p, compute_predicted x amplitudes rate_constants = some p ∧ p.length = x.length :=
  ⟨spec_waveform x amplitudes rate_constants,
    compute_predicted_eq x amplitudes rate_constants (le_of_eq h),
    length_spec_waveform x amplitudes rate_constants⟩

theorem compute_predicted_length_witness :
    ([] : List ℚ).length = ([] : List ℚ).length ∧
    ∃ p, compute_predicted [] [] [] = some p ∧ p.length = ([] : List ℚ).length :=
  ⟨rfl, compute_predicted_length [] [] [] rfl⟩

/-- C6, as the claim states it, fails: with both sequences empty (so "either of them is
empty" holds) `compute_predicted` does not fail, it returns the input. -/
theorem empty_model_is_accepted :
    ¬ (compute_predicted [1] [] [] = none ↔
      (([] : List ℚ).length ≠ ([] : List ℚ).length ∨ ([] : List ℚ) = [] ∨
        ([] : List ℚ) = [])) ∧
    compute_predicted [1] [] [] = some [1] ∧
    compute_predicted [1] [] [1 / 2] = some [1] := by
  have h1 : compute_predicted [1] [] [] = some [1] := by
    simp [compute_predicted, forRange, forLoop, predict_step, update_currents, eddy_effect]
  have h2 : compute_predicted [1] [] [1 / 2] = some [1] := by
    simp [compute_predicted, forRange, forLoop, predict_step, update_currents, eddy_effect]
  refine ⟨?_, h1, h2⟩
  rw [h1]
  simp

/-- C6, amended: `compute_predicted` validates nothing and raises no error. It returns a
waveform exactly when the input is empty or there are at least as many rate constants as
amplitudes (so for all sequences of equal length, the empty ones included); otherwise it
reads `rate_constants` out of range. The check for empty sequences is made by `run`, which
stops with the error "No valid parameters found" exactly when `amplitudes` or
`rate_constants` is empty. -/
theorem model_validation (x amplitudes rate_constants desired : List ℚ) (iterations : Int)
    (verbose : Bool) (output_file : String) (writable : Bool) :
    (compute_predicted x amplitudes rate_constants = none ↔
      (x ≠ [] ∧ rate_constants.length < amplitudes.length)) ∧
    (run amplitudes rate_constants desired iterations verbose output_file writable =
        .error .no_valid_parameters ↔ (amplitudes = [] ∨ rate_constants = [])) :=
  ⟨compute_predicted_eq_none_iff x amplitudes rate_constants,
    run_error_iff amplitudes rate_constants desired iterations verbose output_file writable⟩

/-- C7, as the claim states it, fails: with an empty desired waveform the run of 2 verbose
rounds does not fail; it reports the rounds 0, 1 and 2 and writes the (empty) output
file. -/
theorem empty_waveform_is_accepted :
    run [1 / 5] [1 / 2] [] 2 true "out.txt" true =
      .ok { input := []
            predicted := []
            reports := [{ round := 0, max_dev := 0, kind := .initial },
                        { round := 1, max_dev := 0, kind := .verbose },
                        { round := 2, max_dev := 0, kind := .final }]
            snapshot := some [] } := by
  simp [run, run_init, run_loop, round_body, compute_predicted, max_deviation, update_input,
    forRange, forLoop]

/-- C7, amended: an empty desired waveform is not rejected. With at least one mode the run
returns: it reports round 0 with the metric 0, goes through its rounds on empty waveforms
and every metric it reports is 0. -/
theorem run_empty_desired (amplitudes rate_constants : List ℚ)
    (h : amplitudes.length = rate_constants.length) (ha : amplitudes ≠ [])
    (iterations : Int) (verbose : Bool) (output_file : String) (writable : Bool) :
    ∃ st, run amplitudes rate_constants [] iterations verbose output_file writable = .ok st ∧
      st.input = [] ∧ st.predicted = [] ∧
      st.reports.head? = some { round := 0, max_dev := 0, kind := .initial } ∧
      ∀ r ∈ st.reports, r.max_dev = 0 := by
  refine ⟨_, run_eq amplitudes rate_constants [] iterations verbose output_file writable
    (le_of_eq h) ha, spec_input_nil _ _ _, spec_round_nil _ _ _, ?_, ?_⟩
  · exact head_round_reports _ _ _ _
  · intro r hr
    obtain ⟨j, -, -, hm⟩ := mem_round_reports _ _ _ _ r hr
    rw [hm]
    rfl

theorem run_empty_desired_witness :
    ([1 / 5] : List ℚ).length = ([1 / 2] : List ℚ).length ∧ ([1 / 5] : List ℚ) ≠ [] ∧
    ∃ st, run [1 / 5] [1 / 2] [] 3 false "" false = .ok st ∧
      st.input = [] ∧ st.predicted = [] ∧
      st.reports.head? = some { round := 0, max_dev := 0, kind := .initial } ∧
      ∀ r ∈ st.reports, r.max_dev = 0 :=
  ⟨rfl, by simp, run_empty_desired [1 / 5] [1 / 2] rfl (by simp) 3 false "" false⟩

/-- C8, as the claim states it, fails: with `R = 0` and an output file given and writable,
nothing is written to the file, so no snapshot equals the desired waveform `[1]`. -/
theorem no_snapshot_without_round :
    ∃ st, run [1 / 5] [1 / 2] [1] 0 false "out.txt" true = .ok st ∧
      st.snapshot = none ∧ st.snapshot ≠ some [1] := by
  refine ⟨_, run_eq [1 / 5] [1 / 2] [1] 0 false "out.txt" true (le_refl _) (by simp), ?_, ?_⟩
  · rfl
  · simp [round_state]

/-- C8, amended: with `R = 0` and at least one mode, the run makes exactly one report
(round 0), leaves the working input equal to the desired waveform and writes no snapshot,
whether an output file is given or not: the file is written only at the end of a
correction round. -/
theorem run_zero_rounds (amplitudes rate_constants desired : List ℚ)
    (h : amplitudes.length = rate_constants.length) (ha : amplitudes ≠ [])
    (verbose : Bool) (output_file : String) (writable : Bool) :
    ∃ p0 m, compute_predicted desired amplitudes rate_constants = some p0 ∧
      max_deviation desired p0 = some m ∧
      run amplitudes rate_constants desired 0 verbose output_file writable =
        .ok { input := desired
              predicted := p0
              reports := [{ round := 0, max_dev := m, kind := .initial }]
              snapshot := none } :=
  ⟨_, _, compute_predicted_eq desired amplitudes rate_constants (le_of_eq h),
    max_deviation_eq desired _ (by rw [length_spec_waveform]),
    run_eq amplitudes rate_constants desired 0 verbose output_file writable (le_of_eq h) ha⟩

theorem run_zero_rounds_witness :
    ([1 / 5] : List ℚ).length = ([1 / 2] : List ℚ).length ∧ ([1 / 5] : List ℚ) ≠ [] ∧
    ∃ p0 m, compute_predicted [0, 1, 1] [1 / 5] [1 / 2] = some p0 ∧
      max_deviation [0, 1, 1] p0 = some m ∧
      run [1 / 5] [1 / 2] [0, 1, 1] 0 true "out.txt" true =
        .ok { input := [0, 1, 1]
              predicted := p0
              reports := [{ round := 0, max_dev := m, kind := .initial }]
              snapshot := none } :=
  ⟨rfl, by simp, run_zero_rounds [1 / 5] [1 / 2] [0, 1, 1] rfl (by simp) true "out.txt" true⟩

/-! ## The reports of a run -/

theorem prev_sample_lin (x y z : List ℚ) (α β : ℚ)
    (h : ∀ t, sample z t = α * sample x t + β * sample y t) (n : Nat) :
    prev_sample z n = α * prev_sample x n + β * prev_sample y n := by
  cases n with
  | zero => simp [prev_sample]
  | succ m => exact h m

theorem current_after_lin (x y z : List ℚ) (α β ri : ℚ)
    (h : ∀ t, sample z t = α * sample x t + β * sample y t) (n : Nat) :
    current_after z ri n = α * current_after x ri n + β * current_after y ri n := by
  induction n with
  | zero => simp [current_after]
  | succ m ih =>
    simp only [current_after, ih, h m, prev_sample_lin x y z α β h m]
    ring

theorem spec_predicted_lin (x y z amplitudes rate_constants : List ℚ) (α β : ℚ)
    (h : ∀ t, sample z t = α * sample x t + β * sample y t) (t : Nat) :
    spec_predicted z amplitudes rate_constants t =
      α * spec_predicted x amplitudes rate_constants t +
        β * spec_predicted y amplitudes rate_constants t := by
  simp only [spec_predicted, spec_eddy, spec_current_eq, current_after_lin x y z α β _ h,
    h t, mul_sub, Finset.mul_sum, add_mul, Finset.sum_add_distrib, mul_assoc]
  ring

theorem sample_zipWith_lin (x y : List ℚ) (α β : ℚ) (hl : x.length = y.length) (t : Nat) :
    sample (List.zipWith (fun u v => α * u + β * v) x y) t =
      α * sample x t + β * sample y t := by
  by_cases ht : t < x.length
  · apply sample_of_getElem?
    rw [List.getElem?_zipWith, sample_of_lt ht, sample_of_lt (hl ▸ ht)]
  · rw [sample_of_le (by simp; omega), sample_of_le (by omega), sample_of_le (by omega)]
    ring

theorem spec_waveform_lin (x y amplitudes rate_constants : List ℚ) (α β : ℚ)
    (hl : x.length = y.length) :
    spec_waveform (List.zipWith (fun u v => α * u + β * v) x y) amplitudes rate_constants =
      List.zipWith (fun u v => α * u + β * v) (spec_waveform x amplitudes rate_constants)
        (spec_waveform y amplitudes rate_constants) := by
  apply List.ext_getElem?
  intro j
  have hz : (List.zipWith (fun u v => α * u + β * v) x y).length = x.length := by
    simp [hl]
  by_cases hj : j < x.length
  · rw [getElem?_spec_waveform _ _ _ j (by rw [hz]; exact hj), List.getElem?_zipWith,
      getElem?_spec_waveform _ _ _ j hj, getElem?_spec_waveform _ _ _ j (hl ▸ hj),
      spec_predicted_lin x y _ amplitudes rate_constants α β (sample_zipWith_lin x y α β hl)]
  · rw [List.getElem?_eq_none (by rw [length_spec_waveform, hz]; omega),
      List.getElem?_eq_none (by simp [length_spec_waveform]; omega)]

theorem sample_cons_succ (v : ℚ) (x : List ℚ) (t : Nat) :
    sample (v :: x) (t + 1) = sample x t := by
  simp [sample]

theorem sample_cons_eq_prev (x : List ℚ) (n : Nat) :
    sample (0 :: x) n = prev_sample x n := by
  cases n with
  | zero => simp [sample, prev_sample]
  | succ m => exact sample_cons_succ 0 x m

theorem current_after_cons_zero (x : List ℚ) (ri : ℚ) (n : Nat) :
    current_after (0 :: x) ri (n + 1) = current_after x ri n := by
  induction n with
  | zero => simp [current_after, prev_sample, sample]
  | succ m ih =>
    rw [current_after, ih, current_after, sample_cons_succ]
    have e : prev_sample (0 :: x) (m + 1) = prev_sample x m := sample_cons_eq_prev x m
    rw [e]

theorem spec_predicted_cons_zero (x amplitudes rate_constants : List ℚ) :
    spec_predicted (0 :: x) amplitudes rate_constants 0 = 0 := by
  simp [spec_predicted, spec_eddy, spec_current, sample]

theorem spec_predicted_cons_succ (x amplitudes rate_constants : List ℚ) (t : Nat) :
    spec_predicted (0 :: x) amplitudes rate_constants (t + 1) =
      spec_predicted x amplitudes rate_constants t := by
  simp only [spec_predicted, spec_eddy, spec_current_eq, current_after_cons_zero,
    sample_cons_succ]

theorem spec_waveform_cons_zero (x amplitudes rate_constants : List ℚ) :
    spec_waveform (0 :: x) amplitudes rate_constants =
      0 :: spec_waveform x amplitudes rate_constants := by
  simp only [spec_waveform, List.length_cons, List.range_succ_eq_map, List.map_cons,
    List.map_map, spec_predicted_cons_zero]
  congr 1
  apply List.map_congr_left
  intro t _
  exact spec_predicted_cons_succ x amplitudes rate_constants t

theorem prev_sample_congr (x y : List ℚ) (n : Nat) (h : ∀ s, s < n → sample x s = sample y s) :
    prev_sample x n = prev_sample y n := by
  cases n with
  | zero => rfl
  | succ m => exact h m (by omega)

theorem current_after_congr (x y : List ℚ) (ri : ℚ) (n : Nat)
    (h : ∀ s, s < n → sample x s = sample y s) :
    current_after x ri n = current_after y ri n := by
  induction n with
  | zero => rfl
  | succ m ih =>
    rw [current_after, current_after, ih (fun s hs => h s (by omega)), h m (by omega),
      prev_sample_congr x y m (fun s hs => h s (by omega))]

/-- The predicted sample at `t` is fixed by the input samples up to `t`. -/
theorem spec_predicted_congr (x y amplitudes rate_constants : List ℚ) (t : Nat)
    (h : ∀ s, s ≤ t → sample x s = sample y s) :
    spec_predicted x amplitudes rate_constants t =
      spec_predicted y amplitudes rate_constants t := by
  simp only [spec_predicted, spec_eddy, spec_current_eq, h t (le_refl t)]
  congr 1
  refine Finset.sum_congr rfl (fun i _ => ?_)
  rw [current_after_congr x y _ (t + 1) (fun s hs => h s (by omega))]

theorem sample_take (x : List ℚ) (k s : Nat) (hs : s < k) :
    sample (x.take k) s = sample x s := by
  simp [sample, List.getElem?_take_of_lt hs]

theorem spec_waveform_take (x amplitudes rate_constants : List ℚ) (k : Nat) :
    spec_waveform (x.take k) amplitudes rate_constants =
      (spec_waveform x amplitudes rate_constants).take k := by
  apply List.ext_getElem?
  intro j
  rw [List.getElem?_take]
  by_cases hj : j < k
  · rw [if_pos hj]
    by_cases hx : j < x.length
    · rw [getElem?_spec_waveform _ _ _ j (by simp; omega), getElem?_spec_waveform _ _ _ j hx,
        spec_predicted_congr (x.take k) x _ _ j (fun s hs => sample_take x k s (by omega))]
    · rw [List.getElem?_eq_none (by rw [length_spec_waveform]; simp; omega),
        List.getElem?_eq_none (by rw [length_spec_waveform]; omega)]
  · rw [if_neg hj, List.getElem?_eq_none (by rw [length_spec_waveform]; simp; omega)]

/-- C12 (linearity): for amplitude and rate-constant sequences of equal length, input
waveforms `x` and `y` of equal length and scalars `α` and `β`, `compute_predicted` returns
on `x`, on `y` and on `α * x + β * y`, and the third result is `α` times the first plus
`β` times the second, sample by sample, in exact arithmetic. -/
theorem linearity (x y amplitudes rate_constants : List ℚ) (α β : ℚ)
    (h : amplitudes.length = rate_constants.length) (hl : x.length = y.length) :
    ∃ px py, compute_predicted x amplitudes rate_constants = some px ∧
      compute_predicted y amplitudes rate_constants = some py ∧
      px.length = x.length ∧ py.length = x.length ∧
      compute_predicted (List.zipWith (fun u v => α * u + β * v) x y) amplitudes
          rate_constants =
        some (List.zipWith (fun u v => α * u + β * v) px py) := by
  refine ⟨_, _, compute_predicted_eq x amplitudes rate_constants (le_of_eq h),
    compute_predicted_eq y amplitudes rate_constants (le_of_eq h),
    length_spec_waveform _ _ _, ?_, ?_⟩
  · rw [length_spec_waveform, hl]
  · rw [compute_predicted_eq _ amplitudes rate_constants (le_of_eq h),
      spec_waveform_lin x y amplitudes rate_constants α β hl]

theorem linearity_witness :
    ([1 / 5] : List ℚ).length = ([1 / 2] : List ℚ).length ∧
    ([0, 1, 1] : List ℚ).length = ([1, 0, 2] : List ℚ).length ∧
    ∃ px py, compute_predicted [0, 1, 1] [1 / 5] [1 / 2] = some px ∧
      compute_predicted [1, 0, 2] [1 / 5] [1 / 2] = some py ∧
      px.length = ([0, 1, 1] : List ℚ).length ∧ py.length = ([0, 1, 1] : List ℚ).length ∧
      compute_predicted (List.zipWith (fun u v => 3 * u + (-2) * v) [0, 1, 1] [1, 0, 2])
          [1 / 5] [1 / 2] =
        some (List.zipWith (fun u v => 3 * u + (-2) * v) px py) :=
  ⟨rfl, rfl, linearity [0, 1, 1] [1, 0, 2] [1 / 5] [1 / 2] 3 (-2) rfl rfl⟩

/-- C13 (time invariance): for amplitude and rate-constant sequences of equal length and
every input waveform `x`, `compute_predicted` returns on `x` and on `0 :: x`, and the
result on `0 :: x` is the result on `x` with a sample 0 put in front. -/
theorem time_invariance (x amplitudes rate_constants : List ℚ)
    (h : amplitudes.length = rate_constants.length) :
    ∃ p, compute_predicted x amplitudes rate_constants = some p ∧
      compute_predicted (0 :: x) amplitudes rate_constants = some (0 :: p) := by
  refine ⟨_, compute_predicted_eq x amplitudes rate_constants (le_of_eq h), ?_⟩
  rw [compute_predicted_eq _ amplitudes rate_constants (le_of_eq h), spec_waveform_cons_zero]

theorem time_invariance_witness :
    ([1 / 5] : List ℚ).length = ([1 / 2] : List ℚ).length ∧
    ∃ p, compute_predicted [1, 1, 0] [1 / 5] [1 / 2] = some p ∧
      compute_predicted (0 :: [1, 1, 0]) [1 / 5] [1 / 2] = some (0 :: p) :=
  ⟨rfl, time_invariance [1, 1, 0] [1 / 5] [1 / 2] rfl⟩

/-- C19 (causality): for amplitude and rate-constant sequences of equal length, every
input waveform `x` and every `k` (in particular `k <= len(x)`), `compute_predicted` on
the first `k` samples of `x` returns the first `k` samples of its result on `x`; and two
inputs that agree up to sample `t` have the same predicted sample `t`. -/
theorem causality (x amplitudes rate_constants : List ℚ) (k : Nat)
    (h : amplitudes.length = rate_constants.length) :
    ∃ p, compute_predicted x amplitudes rate_constants = some p ∧
      compute_predicted (x.take k) amplitudes rate_constants = some (p.take k) ∧
      ∀ (y : List ℚ) (t : Nat), t < x.length → t < y.length →
        (∀ s, s ≤ t → x[s]? = y[s]?) →
        ∃ q, compute_predicted y amplitudes rate_constants = some q ∧ q[t]? = p[t]? := by
  refine ⟨_, compute_predicted_eq x amplitudes rate_constants (le_of_eq h), ?_, ?_⟩
  · rw [compute_predicted_eq _ amplitudes rate_constants (le_of_eq h), spec_waveform_take]
  · intro y t hx hy hxy
    refine ⟨_, compute_predicted_eq y amplitudes rate_constants (le_of_eq h), ?_⟩
    rw [getElem?_spec_waveform _ _ _ t hy, getElem?_spec_waveform _ _ _ t hx,
      spec_predicted_congr y x amplitudes rate_constants t
        (fun s hs => by simp only [sample, List.getD_eq_getElem?_getD, hxy s hs])]

theorem causality_witness :
    ([1 / 5] : List ℚ).length = ([1 / 2] : List ℚ).length ∧
    ∃ p, compute_predicted [0, 1, 1, 0] [1 / 5] [1 / 2] = some p ∧
      compute_predicted (([0, 1, 1, 0] : List ℚ).take 2) [1 / 5] [1 / 2] = some (p.take 2) ∧
      ∀ (y : List ℚ) (t : Nat), t < ([0, 1, 1, 0] : List ℚ).length → t < y.length →
        (∀ s, s ≤ t → ([0, 1, 1, 0] : List ℚ)[s]? = y[s]?) →
        ∃ q, compute_predicted y [1 / 5] [1 / 2] = some q ∧ q[t]? = p[t]? :=
  ⟨rfl, causality [0, 1, 1, 0] [1 / 5] [1 / 2] 2 rfl⟩

/-! ## The response to a step -/

theorem sample_replicate (T : Nat) (c : ℚ) (t : Nat) (ht : t < T) :
    sample (List.replicate T c) t = c := by
  apply sample_of_getElem?
  rw [List.getElem?_replicate, if_pos ht]

theorem current_after_replicate (T : Nat) (c ri : ℚ) (n : Nat) (hn : n < T) :
    current_after (List.replicate T c) ri (n + 1) = c * (1 - ri) ^ n := by
  induction n with
  | zero =>
    simp only [current_after, prev_sample, sample_replicate T c 0 hn]
    ring
  | succ m ih =>
    rw [current_after, ih (by omega), prev_sample, sample_replicate T c (m + 1) hn,
      sample_replicate T c m (by omega)]
    ring

theorem spec_predicted_replicate (T : Nat) (c : ℚ) (amplitudes rate_constants : List ℚ)
    (t : Nat) (ht : t < T) :
    spec_predicted (List.replicate T c) amplitudes rate_constants t =
      c * (1 - ∑ i ∈ Finset.range amplitudes.length,
        sample amplitudes i * (1 - sample rate_constants i) ^ t) := by
  simp only [spec_predicted, spec_eddy, spec_current_eq, current_after_replicate T c _ t ht,
    sample_replicate T c t ht, mul_sub, mul_one, Finset.mul_sum]
  congr 1
  refine Finset.sum_congr rfl (fun i _ => ?_)
  ring

theorem tendsto_step_effect (c : ℚ) (amplitudes rate_constants : List ℚ)
    (hr : ∀ i, i < amplitudes.length →
      0 < sample rate_constants i ∧ sample rate_constants i ≤ 1) :
    Filter.Tendsto
      (fun t : Nat => c * ∑ i ∈ Finset.range amplitudes.length,
        sample amplitudes i * (1 - sample rate_constants i) ^ t)
      Filter.atTop (nhds 0) := by
  have h1 : ∀ i ∈ Finset.range amplitudes.length,
      Filter.Tendsto (fun t : Nat => sample amplitudes i * (1 - sample rate_constants i) ^ t)
        Filter.atTop (nhds (sample amplitudes i * 0)) := by
    intro i hi
    obtain ⟨h0, h1⟩ := hr i (Finset.mem_range.mp hi)
    exact (tendsto_pow_atTop_nhds_zero_of_lt_one (by linarith) (by linarith)).const_mul _
  have h2 := (tendsto_finset_sum (Finset.range amplitudes.length) h1).const_mul c
  simpa using h2

/-- C18 (step response): for amplitude and rate-constant sequences of equal length and the
constant input of `T` samples `c`, `compute_predicted` returns a waveform of length `T`
with `predicted[t] = c * (1 - sum_i a_i * (1 - r_i)^t)` at every `t < T`, in exact
arithmetic; and when every rate constant is in `(0, 1]`, the eddy effect
`c * sum_i a_i * (1 - r_i)^t` of the step tends to 0 as `t` grows. -/
theorem step_response (T : Nat) (c : ℚ) (amplitudes rate_constants : List ℚ)
    (h : amplitudes.length = rate_constants.length) :
    (∃ p, compute_predicted (List.replicate T c) amplitudes rate_constants = some p ∧
      p.length = T ∧
      ∀ t, t < T →
        p[t]? = some (c * (1 - ∑ i ∈ Finset.range amplitudes.length,
          sample amplitudes i * (1 - sample rate_constants i) ^ t))) ∧
    ((∀ i, i < amplitudes.length →
        0 < sample rate_constants i ∧ sample rate_constants i ≤ 1) →
      Filter.Tendsto
        (fun t : Nat => c * ∑ i ∈ Finset.range amplitudes.length,
          sample amplitudes i * (1 - sample rate_constants i) ^ t)
        Filter.atTop (nhds 0)) := by
  refine ⟨⟨_, compute_predicted_eq _ amplitudes rate_constants (le_of_eq h), ?_, ?_⟩,
    tendsto_step_effect c amplitudes rate_constants⟩
  · rw [length_spec_waveform, List.length_replicate]
  · intro t ht
    rw [getElem?_spec_waveform _ _ _ t (by rw [List.length_replicate]; exact ht),
      spec_predicted_replicate T c amplitudes rate_constants t ht]

theorem step_response_witness :
    ([1 / 5, 1 / 10] : List ℚ).length = ([1 / 2, 1] : List ℚ).length ∧
    (∃ p, compute_predicted (List.replicate 4 3) [1 / 5, 1 / 10] [1 / 2, 1] = some p ∧
      p.length = 4 ∧
      ∀ t, t < 4 →
        p[t]? = some (3 * (1 - ∑ i ∈ Finset.range ([1 / 5, 1 / 10] : List ℚ).length,
          sample [1 / 5, 1 / 10] i * (1 - sample [1 / 2, 1] i) ^ t))) ∧
    ((∀ i, i < ([1 / 5, 1 / 10] : List ℚ).length →
        0 < sample [1 / 2, 1] i ∧ sample [1 / 2, 1] i ≤ 1) →
      Filter.Tendsto
        (fun t : Nat => (3 : ℚ) * ∑ i ∈ Finset.range ([1 / 5, 1 / 10] : List ℚ).length,
          sample [1 / 5, 1 / 10] i * (1 - sample [1 / 2, 1] i) ^ t)
        Filter.atTop (nhds 0)) :=
  ⟨rfl, step_response 4 3 [1 / 5, 1 / 10] [1 / 2, 1] rfl⟩

/-! ## The deviation from round to round -/

theorem list_ext_sample (x y : List ℚ) (hl : x.length = y.length)
    (h : ∀ t, t < x.length → sample x t = sample y t) : x = y := by
  apply List.ext_getElem?
  intro j
  by_cases hj : j < x.length
  · rw [sample_of_lt hj, sample_of_lt (hl ▸ hj), h j hj]
  · rw [List.getElem?_eq_none (by omega), List.getElem?_eq_none (by omega)]

theorem length_deviation (desired predicted : List ℚ) :
    (deviation desired predicted).length = desired.length := by
  simp [deviation]

theorem getElem?_deviation (desired predicted : List ℚ) (t : Nat) (ht : t < desired.length) :
    (deviation desired predicted)[t]? = some (sample desired t - sample predicted t) := by
  simp [deviation, List.getElem?_range ht]

theorem spec_error_eq_deviation (desired amplitudes rate_constants : List ℚ) (k : Nat) :
    spec_error desired amplitudes rate_constants k =
      deviation desired (spec_round desired amplitudes rate_constants k) :=
  rfl

theorem deviation_succ (desired amplitudes rate_constants : List ℚ) (k : Nat) :
    deviation desired (spec_round desired amplitudes rate_constants (k + 1)) =
      List.zipWith (fun u v => u - v)
        (deviation desired (spec_round desired amplitudes rate_constants k))
        (spec_waveform (deviation desired (spec_round desired amplitudes rate_constants k))
          amplitudes rate_constants) := by
  apply List.ext_getElem?
  intro j
  by_cases hj : j < desired.length
  · have hj' : j < (deviation desired
        (spec_round desired amplitudes rate_constants k)).length := by
      rw [length_deviation]
      exact hj
    rw [getElem?_deviation _ _ j hj, List.getElem?_zipWith, getElem?_deviation _ _ j hj,
      getElem?_spec_waveform _ _ _ j hj',
      spec_error_succ desired amplitudes rate_constants k j hj, spec_error_eq_deviation]
    simp only [spec_predicted, sample_of_getElem? (getElem?_deviation _ _ j hj)]
    congr 1
    ring
  · rw [List.getElem?_eq_none (by rw [length_deviation]; omega),
      List.getElem?_eq_none (by simp [length_deviation, length_spec_waveform]; omega)]

theorem sample_replicate_zero (T t : Nat) : sample (List.replicate T (0 : ℚ)) t = 0 := by
  by_cases ht : t < T
  · exact sample_replicate T 0 t ht
  · exact sample_of_le (by simp; omega)

/-- Once the deviation is all zeros, the working waveform and the prediction stay. -/
theorem spec_input_stationary (desired amplitudes rate_constants : List ℚ) (k : Nat)
    (hz : deviation desired (spec_round desired amplitudes rate_constants k) =
      List.replicate desired.length 0) (m : Nat) :
    spec_input desired amplitudes rate_constants (k + m) =
        spec_input desired amplitudes rate_constants k ∧
      spec_round desired amplitudes rate_constants (k + m) =
        spec_round desired amplitudes rate_constants k := by
  induction m with
  | zero => exact ⟨rfl, rfl⟩
  | succ n ih =>
    obtain ⟨h1, h2⟩ := ih
    have he : spec_error desired amplitudes rate_constants (k + n) =
        List.replicate desired.length 0 := by
      rw [spec_error_eq_deviation, h2, hz]
    have hin : spec_input desired amplitudes rate_constants (k + n + 1) =
        spec_input desired amplitudes rate_constants (k + n) := by
      apply list_ext_sample
      · rw [length_spec_input, length_spec_input]
      · intro t _
        rw [sample_spec_input_succ, he, sample_replicate_zero, add_zero]
    have hin' : spec_input desired amplitudes rate_constants (k + (n + 1)) =
        spec_input desired amplitudes rate_constants k := by
      rw [← h1, ← hin]
      rfl
    exact ⟨hin', by rw [spec_round, hin', spec_round]⟩

/-- C17 (error recurrence): with at least one mode, let `st` and `st'` be the states of
`run` after `k` and `k + 1` rounds and `e_k = desired - st.predicted`, `e_(k+1) = desired
- st'.predicted` the deviation waveforms. Then `compute_predicted` returns on `e_k` and
`e_(k+1) = e_k - compute_predicted(e_k)`, sample by sample, in exact arithmetic; and when
`e_k` is all zeros, every later round ends with the input and the prediction of
round `k`. -/
theorem error_recurrence (desired amplitudes rate_constants : List ℚ)
    (h : amplitudes.length = rate_constants.length) (ha : amplitudes ≠ []) (k : Nat)
    (verbose : Bool) (output_file : String) (writable : Bool) :
    ∃ st st' pe,
      run amplitudes rate_constants desired (k : Int) verbose output_file writable = .ok st ∧
      run amplitudes rate_constants desired ((k + 1 : Nat) : Int) verbose output_file
        writable = .ok st' ∧
      compute_predicted (deviation desired st.predicted) amplitudes rate_constants =
        some pe ∧
      deviation desired st'.predicted =
        List.zipWith (fun u v => u - v) (deviation desired st.predicted) pe ∧
      (deviation desired st.predicted = List.replicate desired.length 0 →
        ∀ j : Nat, k ≤ j →
          ∃ stj, run amplitudes rate_constants desired (j : Int) verbose output_file
              writable = .ok stj ∧
            stj.input = st.input ∧ stj.predicted = st.predicted) := by
  refine ⟨_, _, _,
    run_eq amplitudes rate_constants desired (k : Int) verbose output_file writable
      (le_of_eq h) ha,
    run_eq amplitudes rate_constants desired ((k + 1 : Nat) : Int) verbose output_file
      writable (le_of_eq h) ha,
    compute_predicted_eq _ amplitudes rate_constants (le_of_eq h), ?_, ?_⟩
  · simp only [round_state, Int.toNat_ofNat]
    exact deviation_succ desired amplitudes rate_constants k
  · intro hz j hj
    simp only [round_state, Int.toNat_ofNat] at hz
    refine ⟨_, run_eq amplitudes rate_constants desired (j : Int) verbose output_file
      writable (le_of_eq h) ha, ?_, ?_⟩
    · simp only [round_state, Int.toNat_ofNat]
      have e : j = k + (j - k) := by omega
      rw [e]
      exact (spec_input_stationary desired amplitudes rate_constants k hz (j - k)).1
    · simp only [round_state, Int.toNat_ofNat]
      have e : j = k + (j - k) := by omega
      rw [e]
      exact (spec_input_stationary desired amplitudes rate_constants k hz (j - k)).2

theorem error_recurrence_witness :
    ([1 / 5] : List ℚ).length = ([1 / 2] : List ℚ).length ∧ ([1 / 5] : List ℚ) ≠ [] ∧
    ∃ st st' pe,
      run [1 / 5] [1 / 2] [0, 1, 1] ((2 : Nat) : Int) true "" false = .ok st ∧
      run [1 / 5] [1 / 2] [0, 1, 1] ((2 + 1 : Nat) : Int) true "" false = .ok st' ∧
      compute_predicted (deviation [0, 1, 1] st.predicted) [1 / 5] [1 / 2] = some pe ∧
      deviation [0, 1, 1] st'.predicted =
        List.zipWith (fun u v => u - v) (deviation [0, 1, 1] st.predicted) pe ∧
      (deviation [0, 1, 1] st.predicted = List.replicate ([0, 1, 1] : List ℚ).length 0 →
        ∀ j : Nat, 2 ≤ j →
          ∃ stj, run [1 / 5] [1 / 2] [0, 1, 1] (j : Int) true "" false = .ok stj ∧
            stj.input = st.input ∧ stj.predicted = st.predicted) :=
  ⟨rfl, by simp, error_recurrence [0, 1, 1] [1 / 5] [1 / 2] rfl (by simp) 2 true "" false⟩

/-! ## A model for which the deviation doubles every round, in exact arithmetic -/

theorem diverging_round_zero : compute_predicted [1] [2] [1 / 2] = some [-1] := by
  norm_num [compute_predicted, forRange, forLoop, predict_step, update_currents,
    update_current, eddy_effect, add_effect, List.replicate]

theorem diverging_spec_round_zero : spec_round [1] [2] [1 / 2] 0 = [-1] := by
  have h := compute_predicted_eq [1] [2] [1 / 2] (le_refl _)
  rw [diverging_round_zero] at h
  exact (Option.some.inj h).symm

theorem diverging_error (k : Nat) :
    sample (spec_error [1] [2] [1 / 2] k) 0 = 2 ^ (k + 1) := by
  induction k with
  | zero =>
    rw [sample_spec_error _ _ _ 0 0 (by simp), diverging_spec_round_zero]
    norm_num [sample]
  | succ n ih =>
    rw [sample_spec_error _ _ _ (n + 1) 0 (by simp), spec_error_succ _ _ _ n 0 (by simp),
      spec_eddy_single]
    simp only [spec_current, ih]
    ring

theorem diverging_metric (k : Nat) : round_metric [1] [2] [1 / 2] k = 2 ^ (k + 1) := by
  have h := diverging_error k
  rw [sample_spec_error _ _ _ k 0 (by simp)] at h
  have hp : (0 : ℚ) ≤ 2 ^ (k + 1) := by positivity
  simp only [round_metric, spec_metric, List.length_singleton, dev_max, h, abs_of_nonneg hp]
  exact max_eq_right hp

/-! ## The lengths of the waveforms -/

theorem round_body_lengths (amplitudes rate_constants desired : List ℚ) (iterations : Int)
    (verbose : Bool) (output_file : String) (writable : Bool)
    (hr : amplitudes.length ≤ rate_constants.length) (iter : Int) (st : RunState)
    (hi : st.input.length = desired.length) (hp : st.predicted.length = desired.length) :
    ∃ st', round_body amplitudes rate_constants desired iterations verbose output_file
        writable iter st = some st' ∧
      st'.input.length = desired.length ∧ st'.predicted.length = desired.length := by
  have h1 := update_input_eq desired st.predicted st.input (by omega) (by omega)
  have h2 := compute_predicted_eq (spec_correct desired st.predicted st.input) amplitudes
    rate_constants hr
  have hl1 : (spec_correct desired st.predicted st.input).length = desired.length := by
    rw [length_spec_correct, hi]
  have hl2 : (spec_waveform (spec_correct desired st.predicted st.input) amplitudes
      rate_constants).length = desired.length := by
    rw [length_spec_waveform, hl1]
  have h3 := max_deviation_eq desired
    (spec_waveform (spec_correct desired st.predicted st.input) amplitudes rate_constants)
    (by omega)
  simp only [round_body, h1, h2, h3, Option.map_some']
  by_cases hit : iter = iterations
  · simp only [if_pos hit]
    exact ⟨_, rfl, hl1, hl2⟩
  · cases verbose
    · simp only [if_neg hit, Bool.false_eq_true, if_false]
      exact ⟨_, rfl, hl1, hl2⟩
    · simp only [if_neg hit, if_true]
      exact ⟨_, rfl, hl1, hl2⟩

/-- C20 (length invariant): with amplitude and rate-constant sequences of equal length
and at least one mode, `input` and `predicted` have the length of `desired` (which `run`
never writes) after the initialisation; every round that starts with these lengths reads
and writes in bounds (its body returns) and ends with these lengths; so `run` returns,
never stopping at an out-of-range access, with `input` and `predicted` of the length of
`desired`. -/
theorem length_invariant (desired amplitudes rate_constants : List ℚ)
    (h : amplitudes.length = rate_constants.length) (ha : amplitudes ≠ [])
    (iterations : Int) (verbose : Bool) (output_file : String) (writable : Bool) :
    (∃ st0, run_init amplitudes rate_constants desired = some st0 ∧
      st0.input.length = desired.length ∧ st0.predicted.length = desired.length) ∧
    (∀ (iter : Int) (st : RunState), st.input.length = desired.length →
      st.predicted.length = desired.length →
      ∃ st', round_body amplitudes rate_constants desired iterations verbose output_file
          writable iter st = some st' ∧
        st'.input.length = desired.length ∧ st'.predicted.length = desired.length) ∧
    (∃ st, run amplitudes rate_constants desired iterations verbose output_file writable =
        .ok st ∧
      st.input.length = desired.length ∧ st.predicted.length = desired.length) := by
  refine ⟨⟨_, run_init_eq amplitudes rate_constants desired iterations verbose output_file
      writable (le_of_eq h), ?_, ?_⟩,
    fun iter st hi hp => round_body_lengths amplitudes rate_constants desired iterations
      verbose output_file writable (le_of_eq h) iter st hi hp,
    ⟨_, run_eq amplitudes rate_constants desired iterations verbose output_file writable
      (le_of_eq h) ha, ?_, ?_⟩⟩
  · exact length_spec_input desired amplitudes rate_constants 0
  · exact length_spec_round desired amplitudes rate_constants 0
  · exact length_spec_input desired amplitudes rate_constants iterations.toNat
  · exact length_spec_round desired amplitudes rate_constants iterations.toNat

theorem length_invariant_witness :
    ([1 / 5] : List ℚ).length = ([1 / 2] : List ℚ).length ∧ ([1 / 5] : List ℚ) ≠ [] ∧
    (∃ st0, run_init [1 / 5] [1 / 2] [0, 1, 1] = some st0 ∧
      st0.input.length = ([0, 1, 1] : List ℚ).length ∧
      st0.predicted.length = ([0, 1, 1] : List ℚ).length) ∧
    (∀ (iter : Int) (st : RunState), st.input.length = ([0, 1, 1] : List ℚ).length →
      st.predicted.length = ([0, 1, 1] : List ℚ).length →
      ∃ st', round_body [1 / 5] [1 / 2] [0, 1, 1] 4 true "" false iter st = some st' ∧
        st'.input.length = ([0, 1, 1] : List ℚ).length ∧
        st'.predicted.length = ([0, 1, 1] : List ℚ).length) ∧
    (∃ st, run [1 / 5] [1 / 2] [0, 1, 1] 4 true "" false = .ok st ∧
      st.input.length = ([0, 1, 1] : List ℚ).length ∧
      st.predicted.length = ([0, 1, 1] : List ℚ).length) :=
  ⟨rfl, by simp, length_invariant [0, 1, 1] [1 / 5] [1 / 2] rfl (by simp) 4 true "" false⟩

/-! ## The `abs` of the metric loops -/

theorem to_int_of_abs_lt_one (x : ℚ) (h : |x| < 1) : to_int x = 0 := by
  obtain ⟨h1, h2⟩ := abs_lt.mp h
  unfold to_int
  by_cases h0 : 0 ≤ x
  · rw [if_pos h0]
    exact Int.floor_eq_zero_iff.mpr ⟨h0, h2⟩
  · rw [if_neg h0]
    exact Int.ceil_eq_zero_iff.mpr ⟨h1, le_of_lt (not_le.mp h0)⟩

/-- A deviation of absolute value below 1 counts as 0 in the metric loops. -/
theorem int_abs_of_abs_lt_one (x : ℚ) (h : |x| < 1) : int_abs x = 0 := by
  simp [int_abs, to_int_of_abs_lt_one x h]

theorem printed_dev_of_lt_one (desired predicted : List ℚ) (n : Nat)
    (h : ∀ t, t < n → |sample desired t - sample predicted t| < 1) :
    printed_dev desired predicted n = 0 := by
  induction n with
  | zero => rfl
  | succ k ih =>
    rw [printed_dev, ih (fun t ht => h t (by omega)),
      int_abs_of_abs_lt_one _ (h k (by omega))]
    exact max_self 0

theorem printed_dev_self (x : List ℚ) (n : Nat) : printed_dev x x n = 0 :=
  printed_dev_of_lt_one x x n (fun t _ => by simp)

/-! ## The identity model in exact arithmetic -/

/-- In exact arithmetic, when every amplitude is 0 (the rate constants are arbitrary),
`compute_predicted` returns its input unchanged; and then a run of any number of rounds
ends with `input` and `predicted` both equal to `desired`, every reported metric being
0. -/
theorem identity_model (x amplitudes rate_constants : List ℚ)
    (h : amplitudes.length = rate_constants.length) (h0 : ∀ v ∈ amplitudes, v = 0) :
    compute_predicted x amplitudes rate_constants = some x ∧
    (amplitudes ≠ [] → ∀ (desired : List ℚ) (iterations : Int) (verbose : Bool)
      (output_file : String) (writable : Bool),
      ∃ st, run amplitudes rate_constants desired iterations verbose output_file writable =
          .ok st ∧
        st.input = desired ∧ st.predicted = desired ∧ ∀ r ∈ st.reports, r.max_dev = 0) := by
  refine ⟨?_, ?_⟩
  · rw [compute_predicted_eq x amplitudes rate_constants (le_of_eq h),
      spec_waveform_zero_amplitudes x amplitudes rate_constants h0]
  · intro ha desired iterations verbose output_file writable
    have hin := spec_input_zero_amplitudes desired amplitudes rate_constants h0
    have hround : ∀ k, spec_round desired amplitudes rate_constants k = desired := by
      intro k
      rw [spec_round, hin k, spec_waveform_zero_amplitudes desired amplitudes rate_constants h0]
    refine ⟨_, run_eq amplitudes rate_constants desired iterations verbose output_file
      writable (le_of_eq h) ha, hin _, hround _, ?_⟩
    intro r hr
    obtain ⟨j, -, -, hm⟩ := mem_round_reports _ _ _ _ r hr
    rw [hm, round_printed, hround j, printed_metric, printed_dev_self]

/-! ## The rounds of a run -/

theorem baseline_round_zero :
    compute_predicted [0, 1, 1] [1 / 5] [1 / 2] = some [0, 4 / 5, 9 / 10] := by
  norm_num [compute_predicted, forRange, forLoop, predict_step, update_currents,
    update_current, eddy_effect, add_effect, List.replicate]

theorem baseline_spec_round_zero :
    spec_round [0, 1, 1] [1 / 5] [1 / 2] 0 = [0, 4 / 5, 9 / 10] := by
  have h := compute_predicted_eq [0, 1, 1] [1 / 5] [1 / 2] (le_refl _)
  rw [baseline_round_zero] at h
  exact (Option.some.inj h).symm

theorem baseline_printed : printed_metric [0, 1, 1] [0, 4 / 5, 9 / 10] = 0 := by
  apply printed_dev_of_lt_one
  intro t ht
  have ht' : t < 3 := ht
  interval_cases t
  · norm_num [sample]
  · have e : |(1 : ℚ) / 5| = 1 / 5 := abs_of_pos (by norm_num)
    norm_num [sample, e]
  · have e : |(1 : ℚ) / 10| = 1 / 10 := abs_of_pos (by norm_num)
    norm_num [sample, e]

/-- C5: the code at a failing input. For the mode of amplitude 0.2 and rate constant 0.5
and the desired waveform `[0, 1, 1]`, the round-0 prediction is `[0, 0.8, 0.9]`, so the
largest deviation is 0.2 (at index 1); the metric loop of lines 76-78 computes 0, and
every run reports round 0 with the value 0, which is not an upper bound of the
deviations. -/
theorem round_zero_report_drops_fraction :
    compute_predicted [0, 1, 1] [1 / 5] [1 / 2] = some [0, 4 / 5, 9 / 10] ∧
    max_deviation [0, 1, 1] [0, 4 / 5, 9 / 10] = some 0 ∧
    (∀ (iterations : Int) (verbose : Bool) (output_file : String) (writable : Bool),
      ∃ st, run [1 / 5] [1 / 2] [0, 1, 1] iterations verbose output_file writable = .ok st ∧
        st.reports.head? = some { round := 0, max_dev := 0, kind := .initial }) ∧
    |sample [0, 1, 1] 1 - sample [0, 4 / 5, 9 / 10] 1| = 1 / 5 ∧
    ¬ (|sample [0, 1, 1] 1 - sample [0, 4 / 5, 9 / 10] 1| ≤ 0) := by
  have hdev : |sample [0, 1, 1] 1 - sample [0, 4 / 5, 9 / 10] 1| = 1 / 5 := by
    have e : |(1 : ℚ) / 5| = 1 / 5 := abs_of_pos (by norm_num)
    norm_num [sample, e]
  have hmax : max_deviation [0, 1, 1] [0, 4 / 5, 9 / 10] = some 0 := by
    rw [max_deviation_eq [0, 1, 1] [0, 4 / 5, 9 / 10] (le_refl _), baseline_printed]
  refine ⟨baseline_round_zero, hmax, ?_, hdev, ?_⟩
  · intro iterations verbose output_file writable
    refine ⟨_, run_eq [1 / 5] [1 / 2] [0, 1, 1] iterations verbose output_file writable
      (le_refl _) (by simp), ?_⟩
    simp only [round_state]
    rw [head_round_reports, round_printed, baseline_spec_round_zero, baseline_printed]
  · rw [hdev]
    norm_num

/-- C9 (monotonic improvement): for the single mode of amplitude 0.1 and rate constant 0.3
and every step waveform `d` (`zeros` samples 0, then `n` samples `v`), let `st` and `st'`
be the states of `run` after `k` and `k + 1` rounds. In exact arithmetic the metric
`m' = max_t |d[t] - st'.predicted[t]|` of round `k + 1` is at most the metric
`m = max_t |d[t] - st.predicted[t]|` of round `k`. Each maximum is spelled out: it is
non-negative, at least every deviation, and equal to one of them or to 0. -/
theorem monotonic_improvement (zeros n : Nat) (v : ℚ) (k : Nat) (verbose : Bool)
    (output_file : String) (writable : Bool) :
    ∃ st st' m m',
      run [1 / 10] [3 / 10] (List.replicate zeros 0 ++ List.replicate n v) (k : Int) verbose
        output_file writable = .ok st ∧
      run [1 / 10] [3 / 10] (List.replicate zeros 0 ++ List.replicate n v)
        ((k + 1 : Nat) : Int) verbose output_file writable = .ok st' ∧
      (0 ≤ m ∧
        (∀ t, t < zeros + n →
          |sample (List.replicate zeros 0 ++ List.replicate n v) t - sample st.predicted t|
            ≤ m) ∧
        (m = 0 ∨ ∃ t, t < zeros + n ∧
          m = |sample (List.replicate zeros 0 ++ List.replicate n v) t -
            sample st.predicted t|)) ∧
      (0 ≤ m' ∧
        (∀ t, t < zeros + n →
          |sample (List.replicate zeros 0 ++ List.replicate n v) t - sample st'.predicted t|
            ≤ m') ∧
        (m' = 0 ∨ ∃ t, t < zeros + n ∧
          m' = |sample (List.replicate zeros 0 ++ List.replicate n v) t -
            sample st'.predicted t|)) ∧
      m' ≤ m := by
  have hlen : (List.replicate zeros (0 : ℚ) ++ List.replicate n v).length = zeros + n := by
    simp
  refine ⟨_, _,
    round_metric (List.replicate zeros 0 ++ List.replicate n v) [1 / 10] [3 / 10] k,
    round_metric (List.replicate zeros 0 ++ List.replicate n v) [1 / 10] [3 / 10] (k + 1),
    run_eq [1 / 10] [3 / 10] _ (k : Int) verbose output_file writable (le_refl _) (by simp),
    run_eq [1 / 10] [3 / 10] _ ((k + 1 : Nat) : Int) verbose output_file writable (le_refl _)
      (by simp),
    ⟨dev_max_nonneg _ _ _, ?_, ?_⟩, ⟨dev_max_nonneg _ _ _, ?_, ?_⟩,
    round_metric_succ_le _ (1 / 10) (3 / 10) (by norm_num) (by norm_num)
      (by norm_num [abs_of_pos]) k⟩
  · intro t ht
    simp only [round_state, Int.toNat_ofNat]
    exact dev_max_upper _ _ _ t (by rw [hlen]; exact ht)
  · simp only [round_state, Int.toNat_ofNat]
    have h := dev_max_attained (List.replicate zeros 0 ++ List.replicate n v)
      (spec_round (List.replicate zeros 0 ++ List.replicate n v) [1 / 10] [3 / 10] k)
      (List.replicate zeros (0 : ℚ) ++ List.replicate n v).length
    rw [hlen] at h
    simp only [round_metric, spec_metric]
    rw [hlen]
    exact h
  · intro t ht
    simp only [round_state, Int.toNat_ofNat]
    exact dev_max_upper _ _ _ t (by rw [hlen]; exact ht)
  · simp only [round_state, Int.toNat_ofNat]
    have h := dev_max_attained (List.replicate zeros 0 ++ List.replicate n v)
      (spec_round (List.replicate zeros 0 ++ List.replicate n v) [1 / 10] [3 / 10] (k + 1))
      (List.replicate zeros (0 : ℚ) ++ List.replicate n v).length
    rw [hlen] at h
    simp only [round_metric, spec_metric]
    rw [hlen]
    exact h

end Eddy

/-! # The frame detection -/

namespace MRI

theorem getElem?_cons_succ_congr (u v : ℚ) (rest : List ℚ) (i : Nat) :
    (u :: rest)[i + 1]? = (v :: rest)[i + 1]? := by
  simp

/-- The search for the arrival frame never reads `gradient[0]`. -/
theorem arrival_loop_ignores_first (u v : ℚ) (rest : List ℚ) (fuel i : Nat)
    (arrivalFrame : Int) :
    arrival_loop (u :: rest) fuel (i + 1) arrivalFrame =
      arrival_loop (v :: rest) fuel (i + 1) arrivalFrame := by
  induction fuel generalizing i with
  | zero => rfl
  | succ n ih =>
    simp only [arrival_loop, getElem?_cons_succ_congr u v rest i, ih (i + 1)]

theorem arrival_ignores_first (u v : ℚ) (rest : List ℚ) :
    findContrastArrivalTimeframe (u :: rest) = findContrastArrivalTimeframe (v :: rest) := by
  simp only [findContrastArrivalTimeframe, List.isEmpty_cons, List.length_cons,
    arrival_loop_ignores_first u v rest _ 0 0]

/-- Whenever no later sample exceeds the first one, the peak frame returned is 1. -/
theorem peak_frame_when_first_is_maximum (first : ℚ) (rest : List ℚ)
    (hmax : ∀ u ∈ rest, u ≤ first) :
    findPeakContrastTimeframe (first :: rest) = .ok 1 := by
  obtain ⟨st, h1, h2⟩ := Eddy.forLoop_inv (peak_step (first :: rest))
    (fun _ st => st = { peakFrame := 1, peakIntensity := first })
    rest.length 1 { peakFrame := 1, peakIntensity := first } rfl
    (by
      intro j st hj1 hj2 hst
      subst hst
      obtain ⟨i, rfl⟩ : ∃ i, j = i + 1 := ⟨j - 1, by omega⟩
      have hi : i < rest.length := by omega
      have hle : rest[i] ≤ first := hmax _ (List.getElem_mem hi)
      refine ⟨_, ?_, rfl⟩
      simp only [peak_step, List.getElem?_cons_succ, List.getElem?_eq_getElem hi]
      rw [if_neg (not_lt.mpr hle)])
  subst h2
  simp only [findPeakContrastTimeframe, List.isEmpty_cons, List.getElem?_cons_zero,
    List.length_cons, Nat.add_sub_cancel, h1]
  rfl

/-- C15: the code at failing inputs. On `[5, 3]` the maximum 5 is at index 0 and
`findPeakContrastTimeframe` returns 1, where the value is 3; on `[5]` it returns 1, which
is not an index of the timecourse. The claim asks for the (first) index of the maximum,
0 in both cases. -/
theorem peak_frame_of_leading_maximum :
    findPeakContrastTimeframe [5, 3] = .ok 1 ∧
    ([5, 3] : List ℚ)[0]? = some 5 ∧ ([5, 3] : List ℚ)[1]? = some 3 ∧
    findPeakContrastTimeframe [5] = .ok 1 ∧ ([5] : List ℚ)[1]? = none := by
  refine ⟨?_, rfl, rfl, ?_, rfl⟩
  · norm_num [findPeakContrastTimeframe, Eddy.forLoop, peak_step]
  · norm_num [findPeakContrastTimeframe, Eddy.forLoop, peak_step]

/-- C16: the code at a failing input. The timecourse `[0, 11, 11, 23]` has the gradient
`[11, 0, 12]`, whose smallest index above the threshold 10 is 0, and
`findContrastArrivalTimeframe` returns 2: its loop starts at index 1. -/
theorem arrival_frame_skips_first :
    calculateSignalGradient [0, 11, 11, 23] = some [11, 0, 12] ∧
    findContrastArrivalTimeframe [11, 0, 12] = .ok 2 ∧
    ([11, 0, 12] : List ℚ)[0]? = some 11 ∧ (10 : ℚ) < 11 := by
  refine ⟨?_, ?_, rfl, by norm_num⟩
  · norm_num [calculateSignalGradient, Eddy.forLoop, gradient_step]
  · norm_num [findContrastArrivalTimeframe, arrival_loop]

end MRI
